import Mathlib

/-!
Verification of the imageio DICOM plugin (`imageio/plugins/dicom.py`).

This file gives a shallow embedding of the plugin's core algorithms and
proves/refutes the specification claims about them:

* the undefined-length value scan (`SimpleDicomReader._read_undefined_length_value`),
* the integer promotion rule for rescaling (`_apply_slope_and_offset`),
* the transfer-syntax switch (`_read_header`),
* series finalization and the volume-boundary split
  (`DicomSeries._finish`, `splitSerieIfRequired`, `process_directory`),
* the host dispatch (`DicomFormat.Reader._get_length` / `_get_data`),
* the single-file parse pipeline (`SimpleDicomReader._read` and friends).

Byte streams are modelled as `List Nat` with an explicit cursor; Python floats
are modelled as rationals; fallible code returns `Option`/`Except`.
-/

namespace Dicom

/-- Decidable equality for `Except`, used to evaluate concrete runs. -/
instance {ε α : Type} [DecidableEq ε] [DecidableEq α] : DecidableEq (Except ε α) := by
  intro x y
  cases x <;> cases y
  case error.error a b | ok.ok a b =>
    exact if h : a = b then .isTrue (by rw [h]) else .isFalse (by intro hc; injection hc; exact h ‹_›)
  all_goals exact .isFalse (by intro hc; exact Except.noConfusion hc)

/-! ### Byte-level primitives

`struct.pack`/`struct.unpack` for 16-bit and 32-bit unsigned integers in the
current endianness (`'<'`/`'>'` prefix in the source).
-/

/-- `struct.pack('<H' or '>H', x)`: the two bytes of a 16-bit unsigned value. -/
def pack16 (little : Bool) (x : Nat) : List Nat :=
  if little then [x % 256, x / 256 % 256] else [x / 256 % 256, x % 256]

/-- `struct.unpack('<H' or '>H', ·)` on two bytes. -/
def unpack16 (little : Bool) (b0 b1 : Nat) : Nat :=
  if little then b0 + 256 * b1 else b1 + 256 * b0

/-- `struct.unpack('<I' or '>I', ·)` on four bytes. -/
def unpack32 (little : Bool) (b0 b1 b2 b3 : Nat) : Nat :=
  if little then b0 + 256 * b1 + 65536 * b2 + 16777216 * b3
  else b3 + 256 * b2 + 65536 * b1 + 16777216 * b0

/-! ### The undefined-length scan (`_read_undefined_length_value`)

The source packs the Sequence Delimiter tag `(0xFFFE, 0xE0DD)` in the current
endianness into a 4-byte needle, then reads the stream in 128-byte windows.
If a window cannot be filled completely (after one retry) the scan raises
`EOFError`; if the needle is found at offset `i` of the window the scan keeps
the window's first `i` bytes, seeks past the delimiter, and reads the 4-byte
length field.  If the needle is not found the window minus its last 3 bytes is
accumulated and the cursor is rewound by 3 bytes.
-/

/-- The 4-byte delimiter needle
`struct.pack(prefix+'HH', 0xFFFE, 0xE0DD)`. -/
def delimNeedle (little : Bool) : List Nat :=
  pack16 little 0xFFFE ++ pack16 little 0xE0DD

/-- `bytes.find(nd)` on a window: the first index at which `nd` occurs as a
(fully contained) substring, or `none`. -/
def windowFind (nd : List Nat) : List Nat → Option Nat
  | [] => if nd.isEmpty then some 0 else none
  | b :: t => if nd.isPrefixOf (b :: t) then some 0 else (windowFind nd t).map (· + 1)

/-- One structural-fuel rendering of the scan loop of
`_read_undefined_length_value` (`read_size = 128`, `search_rewind = 3`).
`pos` is the stream cursor, `acc` the accumulated `value_chunks`.  Returns
`none` for `EOFError`, or `some (value, cursor)`. The fuel never runs out when
it is at least the number of windows (the wrapper supplies `s.length + 1`). -/
def scanChunks (s nd : List Nat) : Nat → Nat → List Nat → Option (List Nat × Nat)
  | 0, _, _ => none
  | fuel + 1, pos, acc =>
    if pos + 128 ≤ s.length then
      match windowFind nd ((s.drop pos).take 128) with
      | some i => some (acc ++ ((s.drop pos).take 128).take i, min (pos + i + 8) s.length)
      | none => scanChunks s nd fuel (pos + 125) (acc ++ ((s.drop pos).take 128).take 125)
    else
      none

/-- `_read_undefined_length_value` on a stream positioned at `pos`. -/
def undefinedLengthScan (little : Bool) (s : List Nat) (pos : Nat) :
    Option (List Nat × Nat) :=
  scanChunks s (delimNeedle little) (s.length + 1) pos []

/-! #### Characterization of `windowFind` -/

theorem windowFind_eq_none (nd : List Nat) :
    ∀ w : List Nat, (∀ i, ¬ nd <+: w.drop i) → windowFind nd w = none := by
  intro w
  induction w with
  | nil =>
    intro h
    have hnd : ¬ nd.isEmpty := by
      cases nd with
      | nil => exact absurd (List.nil_prefix (l := ([] : List Nat))) (by simpa using h 0)
      | cons a t => simp
    simp [windowFind, hnd]
  | cons b t ih =>
    intro h
    have h0 : ¬ nd.isPrefixOf (b :: t) = true := by
      rw [List.isPrefixOf_iff_prefix]
      simpa using h 0
    have ht : windowFind nd t = none := ih (fun i => by simpa using h (i + 1))
    simp [windowFind, h0, ht]

theorem windowFind_eq_some_spec (nd : List Nat) :
    ∀ (w : List Nat) (i : Nat), windowFind nd w = some i →
      nd <+: w.drop i ∧ ∀ j < i, ¬ nd <+: w.drop j := by
  intro w
  induction w with
  | nil =>
    intro i h
    unfold windowFind at h
    split at h
    · rename_i hnd
      rw [List.isEmpty_iff] at hnd
      cases h
      exact ⟨by simp [hnd], fun j hj => by omega⟩
    · cases h
  | cons b t ih =>
    intro i h
    unfold windowFind at h
    split at h
    · rename_i hp
      cases h
      refine ⟨by simpa using List.isPrefixOf_iff_prefix.mp hp, fun j hj => by omega⟩
    · rename_i hnp
      cases hwt : windowFind nd t with
      | none => rw [hwt] at h; simp at h
      | some i' =>
        rw [hwt] at h
        simp only [Option.map_some', Option.some.injEq] at h
        subst h
        obtain ⟨h1, h2⟩ := ih i' hwt
        refine ⟨by simpa using h1, fun j hj => ?_⟩
        cases j with
        | zero =>
          simp only [List.drop_zero]
          intro hp
          exact hnp (List.isPrefixOf_iff_prefix.mpr hp)
        | succ j' =>
          simpa using h2 j' (by omega)

theorem windowFind_le_of_prefix (nd : List Nat) :
    ∀ (w : List Nat) (i : Nat), nd <+: w.drop i →
      ∃ j, j ≤ i ∧ windowFind nd w = some j := by
  intro w
  induction w with
  | nil =>
    intro i h
    rw [List.drop_nil] at h
    have hnd : nd = [] := List.prefix_nil.mp h
    exact ⟨0, Nat.zero_le _, by simp [windowFind, hnd]⟩
  | cons b t ih =>
    intro i h
    by_cases h0 : nd.isPrefixOf (b :: t) = true
    · exact ⟨0, Nat.zero_le _, by simp [windowFind, h0]⟩
    · cases i with
      | zero =>
        rw [List.drop_zero] at h
        exact absurd (List.isPrefixOf_iff_prefix.mpr h) h0
      | succ i' =>
        rw [List.drop_succ_cons] at h
        obtain ⟨j, hj, hw⟩ := ih i' h
        exact ⟨j + 1, by omega, by simp [windowFind, h0, hw]⟩

theorem windowFind_eq_exact (nd w : List Nat) (i : Nat)
    (hocc : nd <+: w.drop i) (hnone : ∀ j < i, ¬ nd <+: w.drop j) :
    windowFind nd w = some i := by
  obtain ⟨j, hji, hw⟩ := windowFind_le_of_prefix nd w i hocc
  obtain ⟨h1, -⟩ := windowFind_eq_some_spec nd w j hw
  rcases Nat.lt_or_ge j i with hlt | hge
  · exact absurd h1 (hnone j hlt)
  · have : j = i := by omega
    rw [← this]; exact hw

/-! #### Occurrences of the needle in the stream -/

/-- An occurrence of the needle inside a 128-byte window is an occurrence in
the underlying stream. -/
theorem occ_of_window_occ (s nd : List Nat) (pos j : Nat)
    (h : nd <+: ((s.drop pos).take 128).drop j) : nd <+: s.drop (pos + j) := by
  rw [List.drop_take] at h
  have h2 : nd <+: (s.drop pos).drop j := h.trans (List.take_prefix _ _)
  rwa [List.drop_drop] at h2

/-- A needle found inside a window is fully contained in it. -/
theorem window_occ_bound (s nd : List Nat) (pos j : Nat) (hnd : nd ≠ [])
    (h : nd <+: ((s.drop pos).take 128).drop j) :
    j + nd.length ≤ 128 := by
  have hl := h.length_le
  simp only [List.length_drop, List.length_take, List.length_drop] at hl
  have hpos : 0 < nd.length := List.length_pos.mpr hnd
  omega

/-- No occurrence of a 4-byte needle `[a,b,c,d]` with `a ∉ {b,c,d}` can start
strictly before `V.length` in `V ++ [a,b,c,d] ++ rest` when the needle is not
an infix of `V`.  (The inequalities on `a` rule out a self-overlapping
occurrence straddling the boundary.) -/
theorem no_early_occurrence (V rest : List Nat) (a b c d : Nat)
    (hab : a ≠ b) (hac : a ≠ c) (had : a ≠ d)
    (hV : ¬ [a, b, c, d] <:+: V) :
    ∀ p < V.length, ¬ [a, b, c, d] <+: ((V ++ ([a, b, c, d] ++ rest)).drop p) := by
  intro p hp hpre
  have hdrop : (V ++ ([a, b, c, d] ++ rest)).drop p = V.drop p ++ ([a, b, c, d] ++ rest) := by
    rw [List.drop_append_eq_append_drop, Nat.sub_eq_zero_of_le (Nat.le_of_lt hp), List.drop_zero]
  rw [hdrop] at hpre
  have hlen : (V.drop p).length = V.length - p := List.length_drop _ _
  by_cases hk : p + 4 ≤ V.length
  · -- The occurrence is fully inside `V`: contradiction with `hV`.
    have h1 : [a, b, c, d] <+: V.drop p := by
      refine List.prefix_of_prefix_length_le hpre (List.prefix_append _ _) ?_
      simp only [List.length_cons, List.length_nil, hlen]
      omega
    exact hV (h1.isInfix.trans (List.drop_suffix p V).isInfix)
  · -- The occurrence straddles the boundary: element `V.length - p` of the
    -- needle must equal `a`, contradicting the inequalities.
    obtain ⟨t, ht⟩ := hpre
    have hL : (V.drop p ++ ([a, b, c, d] ++ rest))[V.length - p]? = some a := by
      rw [List.getElem?_append_right (le_of_eq hlen), hlen]
      simp
    rw [← ht] at hL
    have hcase : V.length - p = 1 ∨ V.length - p = 2 ∨ V.length - p = 3 := by omega
    rcases hcase with h1 | h1 | h1 <;> rw [h1] at hL
    · simp at hL; exact hab hL.symm
    · simp at hL; exact hac hL.symm
    · simp at hL; exact had hL.symm

/-! #### The main theorems about the scan -/

/-- If the needle occurs nowhere in the stream after `pos`, the scan loop
always fails (`EOFError`). -/
theorem scanChunks_none_of_no_occurrence (s nd : List Nat)
    (h : ∀ p, ¬ nd <+: s.drop p) :
    ∀ (fuel pos : Nat) (acc : List Nat), scanChunks s nd fuel pos acc = none := by
  intro fuel
  induction fuel with
  | zero => intro pos acc; rfl
  | succ f ih =>
    intro pos acc
    unfold scanChunks
    split
    · have hwf : windowFind nd ((s.drop pos).take 128) = none := by
        refine windowFind_eq_none nd _ (fun i hp => ?_)
        exact h (pos + i) (occ_of_window_occ s nd pos i hp)
      rw [hwf]
      exact ih _ _
    · rfl

/-- A prefix of a list is a prefix of any sufficiently long `take` of it. -/
theorem prefix_take_of_le (l₁ l₂ : List Nat) (m : Nat)
    (h : l₁ <+: l₂) (hm : l₁.length ≤ m) : l₁ <+: l₂.take m := by
  obtain ⟨t, rfl⟩ := h
  rw [List.take_append_eq_append_take, List.take_of_length_le hm]
  exact List.prefix_append _ _

theorem delimNeedle_length (little : Bool) : (delimNeedle little).length = 4 := by
  cases little <;> rfl

theorem delimNeedle_ne_nil (little : Bool) : delimNeedle little ≠ [] := by
  cases little <;> simp [delimNeedle, pack16]

/-- The stream the C1 claim speaks about: value bytes, delimiter needle, the
4-byte zero length field, then the rest of the stream. -/
def scanInput (little : Bool) (V tail : List Nat) : List Nat :=
  V ++ (delimNeedle little ++ ([0, 0, 0, 0] ++ tail))

theorem length_scanInput (little : Bool) (V tail : List Nat) :
    (scanInput little V tail).length = V.length + 8 + tail.length := by
  simp only [scanInput, List.length_append, delimNeedle_length]
  simp
  omega

/-- No occurrence of the needle starts strictly before `V.length` in the C1
input stream, since the needle has no self-overlap. -/
theorem no_early_occurrence_needle (little : Bool) (V rest : List Nat)
    (hV : ¬ delimNeedle little <:+: V) :
    ∀ p < V.length,
      ¬ delimNeedle little <+: ((V ++ (delimNeedle little ++ rest)).drop p) := by
  cases little with
  | false =>
    have he : delimNeedle false = [255, 254, 224, 221] := rfl
    rw [he] at hV
    intro p hp
    rw [he]
    exact no_early_occurrence V rest 255 254 224 221
      (by decide) (by decide) (by decide) hV p hp
  | true =>
    have he : delimNeedle true = [254, 255, 221, 224] := rfl
    rw [he] at hV
    intro p hp
    rw [he]
    exact no_early_occurrence V rest 254 255 221 224
      (by decide) (by decide) (by decide) hV p hp

/-- Main run lemma for the scan loop: after `k` windows have been consumed,
the scan returns the rest of `V` and the cursor past the zero length field,
provided the window containing the needle can be filled; otherwise it fails. -/
theorem scanChunks_run (little : Bool) (V tail : List Nat)
    (hV : ¬ delimNeedle little <:+: V) :
    ∀ (q k fuel : Nat) (acc : List Nat),
      k + q = V.length / 125 → q < fuel →
      scanChunks (scanInput little V tail) (delimNeedle little) fuel (125 * k) acc =
        if 125 * (V.length / 125) + 128 ≤ V.length + 8 + tail.length then
          some (acc ++ ((scanInput little V tail).drop (125 * k)).take (V.length - 125 * k),
                V.length + 8)
        else none := by
  intro q
  induction q with
  | zero =>
    intro k fuel acc hk hfuel
    obtain ⟨f, rfl⟩ : ∃ f, fuel = f + 1 := ⟨fuel - 1, by omega⟩
    have hk' : k = V.length / 125 := by omega
    have hdm := Nat.div_add_mod V.length 125
    have hml : V.length % 125 < 125 := Nat.mod_lt _ (by norm_num)
    have hkle : 125 * k ≤ V.length := by omega
    have hoffle : V.length - 125 * k ≤ 124 := by omega
    have hSlen := length_scanInput little V tail
    by_cases hcond : 125 * (V.length / 125) + 128 ≤ V.length + 8 + tail.length
    · rw [if_pos hcond]
      unfold scanChunks
      rw [if_pos (by omega)]
      have hocc : delimNeedle little <+:
          (((scanInput little V tail).drop (125 * k)).take 128).drop (V.length - 125 * k) := by
        rw [List.drop_take, List.drop_drop]
        have hdropn : (scanInput little V tail).drop (125 * k + (V.length - 125 * k)) =
            delimNeedle little ++ ([0, 0, 0, 0] ++ tail) := by
          have : 125 * k + (V.length - 125 * k) = V.length := by omega
          rw [this, scanInput, List.drop_left]
        rw [hdropn]
        exact prefix_take_of_le _ _ _ (List.prefix_append _ _)
          (by rw [delimNeedle_length]; omega)
      have hnone : ∀ j < V.length - 125 * k,
          ¬ delimNeedle little <+: (((scanInput little V tail).drop (125 * k)).take 128).drop j := by
        intro j hj hpre
        have hso := occ_of_window_occ _ _ _ _ hpre
        exact no_early_occurrence_needle little V ([0, 0, 0, 0] ++ tail) hV
          (125 * k + j) (by omega) hso
      rw [windowFind_eq_exact _ _ _ hocc hnone]
      have htake : (((scanInput little V tail).drop (125 * k)).take 128).take (V.length - 125 * k) =
          ((scanInput little V tail).drop (125 * k)).take (V.length - 125 * k) := by
        rw [List.take_take, Nat.min_eq_left (by omega)]
      have hmin : min (125 * k + (V.length - 125 * k) + 8) (scanInput little V tail).length =
          V.length + 8 := by
        rw [hSlen]
        omega
      simp only [htake, hmin]
    · rw [if_neg hcond]
      unfold scanChunks
      rw [if_neg (by omega)]
  | succ q ih =>
    intro k fuel acc hk hfuel
    obtain ⟨f, rfl⟩ : ∃ f, fuel = f + 1 := ⟨fuel - 1, by omega⟩
    have hklt : 125 * (k + 1) ≤ 125 * (V.length / 125) := by
      have : k + 1 ≤ V.length / 125 := by omega
      exact Nat.mul_le_mul_left _ this
    have hdivle : 125 * (V.length / 125) ≤ V.length := by
      have := Nat.div_add_mod V.length 125
      omega
    have hSlen := length_scanInput little V tail
    unfold scanChunks
    rw [if_pos (by omega)]
    have hwf : windowFind (delimNeedle little)
        (((scanInput little V tail).drop (125 * k)).take 128) = none := by
      refine windowFind_eq_none _ _ (fun j hpre => ?_)
      have hb := window_occ_bound _ _ _ _ (delimNeedle_ne_nil little) hpre
      rw [delimNeedle_length] at hb
      have hso := occ_of_window_occ _ _ _ _ hpre
      exact no_early_occurrence_needle little V ([0, 0, 0, 0] ++ tail) hV
        (125 * k + j) (by omega) hso
    rw [hwf]
    have h125 : 125 * k + 125 = 125 * (k + 1) := by ring
    rw [h125, ih (k + 1) f _ (by omega) (by omega)]
    by_cases hcond : 125 * (V.length / 125) + 128 ≤ V.length + 8 + tail.length
    · rw [if_pos hcond, if_pos hcond]
      have htake : (((scanInput little V tail).drop (125 * k)).take 128).take 125 =
          ((scanInput little V tail).drop (125 * k)).take 125 := by
        rw [List.take_take]
        norm_num
      have hjoin : ((scanInput little V tail).drop (125 * k)).take 125 ++
          ((scanInput little V tail).drop (125 * (k + 1))).take (V.length - 125 * (k + 1)) =
          ((scanInput little V tail).drop (125 * k)).take (V.length - 125 * k) := by
        have h1 : V.length - 125 * k = 125 + (V.length - 125 * (k + 1)) := by omega
        rw [h1, List.take_add]
        congr 2
        rw [List.drop_drop]
        congr 1
      rw [htake, List.append_assoc, hjoin]
    · rw [if_neg hcond, if_neg hcond]

/-- **C1** (amended).  For value bytes `V` not containing the delimiter
needle, the undefined-length scan on `V ++ needle ++ 0x00000000 ++ tail`
returns exactly `V` with the cursor on the first byte of `tail` — *provided*
the 128-byte window in which the needle starts can be filled completely
(`125·⌊|V|/125⌋ + 128 ≤ |V| + 8 + |tail|`); otherwise, and whenever the
needle does not occur at all, the scan fails with `EndOfStream` (`none`). -/
theorem c1_undefined_length_scan (little : Bool) (V tail : List Nat)
    (hV : ¬ delimNeedle little <:+: V) :
    (undefinedLengthScan little (scanInput little V tail) 0 =
      if 125 * (V.length / 125) + 128 ≤ V.length + 8 + tail.length then
        some (V, V.length + 8)
      else none) ∧
    ∀ s : List Nat, (∀ p, ¬ delimNeedle little <+: s.drop p) →
      undefinedLengthScan little s 0 = none := by
  constructor
  · have h := scanChunks_run little V tail hV (V.length / 125) 0
      ((scanInput little V tail).length + 1) []
      (by omega)
      (by rw [length_scanInput]; have := Nat.div_le_self V.length 125; omega)
    have htl : (scanInput little V tail).take V.length = V := by
      rw [scanInput]
      exact List.take_left _ _
    simp only [Nat.mul_zero, Nat.sub_zero, List.drop_zero, List.nil_append, htl] at h
    exact h
  · intro s hs
    exact scanChunks_none_of_no_occurrence s _ hs _ _ _

/-- **C1, counterexample to the claim as stated**: with `V = []` and
`tail = []` the needle is present (followed by its zero length field), yet
the scan fails with `EndOfStream` instead of returning `V` with the cursor
at the first byte of `tail` (position 8), because a full 128-byte window
cannot be read. -/
theorem c1_counterexample :
    ¬ undefinedLengthScan true (scanInput true [] []) 0 = some ([], 8) := by
  decide

/-- Witness instantiating `c1_undefined_length_scan` on a concrete input
(`V = []`, `tail` of 120 bytes, little endian). -/
theorem c1_witness :
    undefinedLengthScan true (scanInput true [] (List.replicate 120 7)) 0 =
      some ([], 8) := by
  have h := (c1_undefined_length_scan true [] (List.replicate 120 7) (by decide)).1
  rw [if_pos (by simp)] at h
  exact h

/-! ### Integer promotion for rescaling (`_apply_slope_and_offset`)

The promotion branch of `_apply_slope_and_offset` runs when the data is an
integer array and both slope and offset are integral.  It computes

```
minReq, maxReq = data.min(), data.max()
minReq = min([minReq, minReq*slope+offset, maxReq*slope+offset])
maxReq = max([maxReq, minReq*slope+offset, maxReq*slope+offset])
```

(note that the second line has already *overwritten* `minReq` when the third
executes) and then selects `np.int8/int16/int32/float32` — signed numpy
types on *both* the signed and the "unsigned" path.
-/

/-- The numpy dtypes the promotion code (or the spec's rule) can select. -/
inductive NpDtype where
  | int8 | int16 | int32 | uint8 | uint16 | uint32 | float32
  deriving DecidableEq, Repr

/-- Dtype selection of `_apply_slope_and_offset` (source lines 664–692),
transcribed with Python's `min`/`max` evaluation order made explicit. -/
def promoteDtype (dataMin dataMax slope offset : Int) : NpDtype :=
  if min dataMin (min (dataMin * slope + offset) (dataMax * slope + offset)) < 0 then
    if max (-(min dataMin (min (dataMin * slope + offset) (dataMax * slope + offset))))
        (max dataMax
          (max ((min dataMin (min (dataMin * slope + offset) (dataMax * slope + offset))) * slope + offset)
            (dataMax * slope + offset))) < 2 ^ 7 then NpDtype.int8
    else if max (-(min dataMin (min (dataMin * slope + offset) (dataMax * slope + offset))))
        (max dataMax
          (max ((min dataMin (min (dataMin * slope + offset) (dataMax * slope + offset))) * slope + offset)
            (dataMax * slope + offset))) < 2 ^ 15 then NpDtype.int16
    else if max (-(min dataMin (min (dataMin * slope + offset) (dataMax * slope + offset))))
        (max dataMax
          (max ((min dataMin (min (dataMin * slope + offset) (dataMax * slope + offset))) * slope + offset)
            (dataMax * slope + offset))) < 2 ^ 31 then NpDtype.int32
    else NpDtype.float32
  else
    if max dataMax
        (max ((min dataMin (min (dataMin * slope + offset) (dataMax * slope + offset))) * slope + offset)
          (dataMax * slope + offset)) < 2 ^ 8 then NpDtype.int8
    else if max dataMax
        (max ((min dataMin (min (dataMin * slope + offset) (dataMax * slope + offset))) * slope + offset)
          (dataMax * slope + offset)) < 2 ^ 16 then NpDtype.int16
    else if max dataMax
        (max ((min dataMin (min (dataMin * slope + offset) (dataMax * slope + offset))) * slope + offset)
          (dataMax * slope + offset)) < 2 ^ 32 then NpDtype.int32
    else NpDtype.float32

/-- The claim's promotion rule, transcribed from the specification sentence:
`minReq = min(data.min, data.min*s+o, data.max*s+o)`, `maxReq` the *analogous
maximum* `max(data.max, data.min*s+o, data.max*s+o)`; smallest width from
`{8,16,32}` whose signed (when `minReq < 0`) or unsigned (otherwise) range
contains `[minReq, maxReq]`; `float32` if 32 bits do not suffice. -/
def claimPromoteDtype (dataMin dataMax slope offset : Int) : NpDtype :=
  if min dataMin (min (dataMin * slope + offset) (dataMax * slope + offset)) < 0 then
    if -(2 ^ 7) ≤ min dataMin (min (dataMin * slope + offset) (dataMax * slope + offset)) ∧
        max dataMax (max (dataMin * slope + offset) (dataMax * slope + offset)) ≤ 2 ^ 7 - 1 then
      NpDtype.int8
    else if -(2 ^ 15) ≤ min dataMin (min (dataMin * slope + offset) (dataMax * slope + offset)) ∧
        max dataMax (max (dataMin * slope + offset) (dataMax * slope + offset)) ≤ 2 ^ 15 - 1 then
      NpDtype.int16
    else if -(2 ^ 31) ≤ min dataMin (min (dataMin * slope + offset) (dataMax * slope + offset)) ∧
        max dataMax (max (dataMin * slope + offset) (dataMax * slope + offset)) ≤ 2 ^ 31 - 1 then
      NpDtype.int32
    else NpDtype.float32
  else
    if max dataMax (max (dataMin * slope + offset) (dataMax * slope + offset)) ≤ 2 ^ 8 - 1 then
      NpDtype.uint8
    else if max dataMax (max (dataMin * slope + offset) (dataMax * slope + offset)) ≤ 2 ^ 16 - 1 then
      NpDtype.uint16
    else if max dataMax (max (dataMin * slope + offset) (dataMax * slope + offset)) ≤ 2 ^ 32 - 1 then
      NpDtype.uint32
    else NpDtype.float32

/-- The promotion rule as amended to match the code: `maxReq` is computed
with the already-updated `minReq`, the width thresholds are
`max(−minReq, maxReq) < 2^(w−1)` on the signed path and `maxReq < 2^w` on
the unsigned path, and the selected dtype is the *signed* `int8/int16/int32`
on both paths (with `float32` fallback). -/
def amendedPromoteDtype (dataMin dataMax slope offset : Int) : NpDtype :=
  if min dataMin (min (dataMin * slope + offset) (dataMax * slope + offset)) < 0 then
    if -(2 ^ 7) < min dataMin (min (dataMin * slope + offset) (dataMax * slope + offset)) ∧
        max dataMax
          (max ((min dataMin (min (dataMin * slope + offset) (dataMax * slope + offset))) * slope + offset)
            (dataMax * slope + offset)) < 2 ^ 7 then NpDtype.int8
    else if -(2 ^ 15) < min dataMin (min (dataMin * slope + offset) (dataMax * slope + offset)) ∧
        max dataMax
          (max ((min dataMin (min (dataMin * slope + offset) (dataMax * slope + offset))) * slope + offset)
            (dataMax * slope + offset)) < 2 ^ 15 then NpDtype.int16
    else if -(2 ^ 31) < min dataMin (min (dataMin * slope + offset) (dataMax * slope + offset)) ∧
        max dataMax
          (max ((min dataMin (min (dataMin * slope + offset) (dataMax * slope + offset))) * slope + offset)
            (dataMax * slope + offset)) < 2 ^ 31 then NpDtype.int32
    else NpDtype.float32
  else
    if max dataMax
        (max ((min dataMin (min (dataMin * slope + offset) (dataMax * slope + offset))) * slope + offset)
          (dataMax * slope + offset)) < 2 ^ 8 then NpDtype.int8
    else if max dataMax
        (max ((min dataMin (min (dataMin * slope + offset) (dataMax * slope + offset))) * slope + offset)
          (dataMax * slope + offset)) < 2 ^ 16 then NpDtype.int16
    else if max dataMax
        (max ((min dataMin (min (dataMin * slope + offset) (dataMax * slope + offset))) * slope + offset)
          (dataMax * slope + offset)) < 2 ^ 32 then NpDtype.int32
    else NpDtype.float32

/-- **C2, counterexample to the claim as stated**: for unsigned data
`[0, 200]` with slope 1 and offset 0 the spec's rule selects an unsigned
8-bit type, but the code selects numpy's *signed* `int8`. -/
theorem c2_counterexample :
    ¬ promoteDtype 0 200 1 0 = claimPromoteDtype 0 200 1 0 := by
  decide

/-- **C2** (amended).  The dtype selected by `_apply_slope_and_offset`
matches the amended rule (updated `minReq` inside `maxReq`, strict
`max(−minReq, maxReq)` thresholds, signed dtypes on both paths) on all
inputs. -/
theorem c2_promotion_rule (dataMin dataMax slope offset : Int) :
    promoteDtype dataMin dataMax slope offset =
      amendedPromoteDtype dataMin dataMax slope offset := by
  unfold promoteDtype amendedPromoteDtype
  generalize min dataMin (min (dataMin * slope + offset) (dataMax * slope + offset)) = mn
  generalize max dataMax (max (mn * slope + offset) (dataMax * slope + offset)) = mx
  split_ifs <;> first | rfl | omega

/-! ### Transfer-syntax switch (`_read_header`, lines 492–514)

`_read_header` maps the `TransferSyntaxUID` (or its absence) to the mode
`(is_implicit_VR, is_little_endian)`; the `1.2.840.10008.1.2.1.99` case
additionally inflates the rest of the stream (`_inflate`, raw DEFLATE via
`zlib.decompress(..., -zlib.MAX_WBITS)`); every other UID raises
(`UnsupportedTransferSyntax`).
-/

/-- The mode resolved by the transfer-syntax switch: VR explicitness,
endianness, and whether the remaining stream must be inflated first. -/
structure TSMode where
  implicitVR : Bool
  littleEndian : Bool
  deflated : Bool
  deriving DecidableEq, Repr

/-- The transfer-syntax switch of `_read_header`. -/
def transferSyntaxMode : Option String → Except Unit TSMode
  | none => .ok ⟨false, true, false⟩
  | some uid =>
    if uid = "1.2.840.10008.1.2.1" then .ok ⟨false, true, false⟩
    else if uid = "1.2.840.10008.1.2.2" then .ok ⟨false, false, false⟩
    else if uid = "1.2.840.10008.1.2" then .ok ⟨true, true, false⟩
    else if uid = "1.2.840.10008.1.2.1.99" then .ok ⟨false, true, true⟩
    else if uid = "1.2.840.10008.1.2.4.70" then .ok ⟨false, true, false⟩
    else .error ()

/-- **C3**.  The transfer-syntax switch resolves exactly the five supported
UIDs (and an absent UID) to the claimed modes — only `…1.2` selects implicit
VR, only `…1.2.2` selects big endian, only `…1.2.1.99` inflates — and fails
with `UnsupportedTransferSyntax` on every other UID. -/
theorem c3_transfer_syntax_switch :
    transferSyntaxMode none = .ok ⟨false, true, false⟩ ∧
    transferSyntaxMode (some "1.2.840.10008.1.2.1") = .ok ⟨false, true, false⟩ ∧
    transferSyntaxMode (some "1.2.840.10008.1.2.2") = .ok ⟨false, false, false⟩ ∧
    transferSyntaxMode (some "1.2.840.10008.1.2") = .ok ⟨true, true, false⟩ ∧
    transferSyntaxMode (some "1.2.840.10008.1.2.1.99") = .ok ⟨false, true, true⟩ ∧
    transferSyntaxMode (some "1.2.840.10008.1.2.4.70") = .ok ⟨false, true, false⟩ ∧
    ∀ uid : String,
      uid ∉ (["1.2.840.10008.1.2.1", "1.2.840.10008.1.2.2", "1.2.840.10008.1.2",
        "1.2.840.10008.1.2.1.99", "1.2.840.10008.1.2.4.70"] : List String) →
      transferSyntaxMode (some uid) = .error () := by
  refine ⟨rfl, rfl, rfl, rfl, rfl, rfl, ?_⟩
  intro uid h
  simp only [List.mem_cons, List.not_mem_nil, or_false, not_or] at h
  obtain ⟨h1, h2, h3, h4, h5⟩ := h
  simp [transferSyntaxMode, h1, h2, h3, h4, h5]

/-- Witness instantiating the universally quantified part of C3 at the
concrete unsupported UID `"1.2.840.10008.1.2.4.50"`. -/
theorem c3_witness :
    transferSyntaxMode (some "1.2.840.10008.1.2.4.50") = .error () := by
  exact c3_transfer_syntax_switch.2.2.2.2.2.2 "1.2.840.10008.1.2.4.50" (by decide)

/-! ### The series builder (`DicomSeries`, `splitSerieIfRequired`,
`process_directory`)

A slice is modelled by the attributes the series code reads.  Python floats
are modelled as rationals.  Attributes whose absence crashes the whole
directory scan before the behaviour claimed about is reached
(`InstanceNumber`, the sort key) or which every successfully parsed dataset
possesses (`Rows`, `Columns`, `PixelSpacing`, `shape`, `sampling`; parsing
fails without them, see `_get_shape_and_sampling`) are plain fields;
`ImagePositionPatient[2]` may be absent (`none`), which
`splitSerieIfRequired` tests for the first slice and which raises
`AttributeError` when accessed on a later slice.
-/

/-- The slice attributes consumed by `DicomSeries._finish` and
`splitSerieIfRequired`. -/
structure DInfo where
  rows : Nat
  columns : Nat
  pixelSpacing : ℚ × ℚ
  zpos : Option ℚ
  instanceNumber : Int
  shape : List Int
  sampling : List ℚ
  deriving DecidableEq, Repr

/-- Errors raised by the series stage: `AttributeError` (a slice without
`ImagePositionPatient` past the first), `IndexError` (`L[0]` on an empty
list), and the `ValueError('Dimensions of slices does not match.')` of
`_finish`. -/
inductive SeriesErr where
  | attrError | indexError | dimensionMismatch
  deriving DecidableEq, Repr

/-- `serie._sort()`: Python's stable sort by `InstanceNumber`, modelled by
the stable `List.insertionSort`. -/
def sortSeries (L : List DInfo) : List DInfo :=
  List.insertionSort (fun a b => a.instanceNumber ≤ b.instanceNumber) L

/-- The walk of `splitSerieIfRequired` (lines 1019–1041): threading the
previous slice and the tracked `distance`, it returns the continuation of
the current bucket, the buckets opened later, and the "missing file"
warnings.  A split happens exactly when `distance` is non-zero (Python
truthiness of the float) and the new gap exceeds `2.1 × distance`; the
split resets `distance` to 0, otherwise `distance` becomes the new gap
(with a warning when it exceeds `1.5 ×` the old one). -/
def splitWalk : DInfo → ℚ → List DInfo →
    Except SeriesErr (List DInfo × List (List DInfo) × List String)
  | _, _, [] => .ok ([], [], [])
  | prev, dist, d :: rest =>
    match prev.zpos, d.zpos with
    | some z1, some z2 =>
      if dist ≠ 0 ∧ |z1 - z2| > 21 / 10 * dist then
        match splitWalk d 0 rest with
        | .ok (cur, bs, msgs) => .ok ([], (d :: cur) :: bs, msgs)
        | .error e => .error e
      else
        match splitWalk d |z1 - z2| rest with
        | .ok (cur, bs, msgs) =>
          .ok (d :: cur, bs,
            (if dist ≠ 0 ∧ |z1 - z2| > 3 / 2 * dist then ["Warning: missing file"]
             else []) ++ msgs)
        | .error e => .error e
    | _, _ => .error .attrError

/-- The bucket computation of `splitSerieIfRequired`: sort by
`InstanceNumber`; if the first slice lacks `ImagePositionPatient` the series
is left as one bucket; otherwise walk the slices.  (The replacement of the
series inside the surrounding list preserves the original position and is
not needed by the claims.) -/
def splitSeries (L : List DInfo) :
    Except SeriesErr (List (List DInfo) × List String) :=
  match sortSeries L with
  | [] => .error .indexError
  | d0 :: rest =>
    match d0.zpos with
    | none => .ok ([d0 :: rest], [])
    | some _ =>
      match splitWalk d0 0 rest with
      | .ok (cur, bs, msgs) => .ok ((d0 :: cur) :: bs, msgs)
      | .error e => .error e

/-- The per-slice loop of `DicomSeries._finish` (lines 874–894): starting
with `ds1 = L[0]` it walks all of `L` (the first iteration compares `L[0]`
with itself), accumulates `distance_sum` and the sampling warnings, aborts
with `DimensionMismatch` when a slice disagrees with the *first* slice's
`Rows × Columns`, and returns the distance sum together with the *last*
slice (`ds2` after the loop). -/
def finishWalk (dims : Nat × Nat) (samp : ℚ × ℚ) :
    DInfo → List DInfo → ℚ → List String →
    List String × Except SeriesErr (ℚ × DInfo)
  | prev, [], dsum, msgs => (msgs, .ok (dsum, prev))
  | prev, d :: rest, dsum, msgs =>
    match prev.zpos, d.zpos with
    | some z1, some z2 =>
      if (d.rows, d.columns) ≠ dims then
        (msgs, .error .dimensionMismatch)
      else
        finishWalk dims samp d rest (dsum + |z1 - z2|)
          (msgs ++ if d.pixelSpacing ≠ samp then ["Warning: sampling does not match."]
                   else [])
    | _, _ => (msgs, .error .attrError)

/-- `DicomSeries._finish`: empty series keep an unset info (`none`),
singleton series adopt the sole slice's info; otherwise the walk above runs
and the info is a copy of the *first* slice's with `shape` and `sampling`
overwritten using the *last* slice's tuples (`ds2.info['shape']`,
`ds2.info['sampling']`, source lines 904–905), prefixed by `N` and the mean
consecutive distance. -/
def seriesFinish (L : List DInfo) : List String × Except SeriesErr (Option DInfo) :=
  match L with
  | [] => ([], .ok none)
  | [d] => ([], .ok (some d))
  | d0 :: d1 :: rest =>
    match finishWalk (d0.rows, d0.columns) d0.pixelSpacing d0 (d0 :: d1 :: rest) 0 [] with
    | (msgs, .error e) => (msgs, .error e)
    | (msgs, .ok (dsum, dlast)) =>
      (msgs, .ok (some { d0 with
        shape := ((d0 :: d1 :: rest).length : Int) :: dlast.shape,
        sampling := dsum / (((d0 :: d1 :: rest).length : ℚ) - 1) :: dlast.sampling }))

/-- The finalize loop of `process_directory` (lines 984–992): each series is
finished; a series whose `_finish` raises is dropped by the bare
`except Exception: pass` — nothing is written to the progress sink for it.
The only `write` calls during finalization are the sampling warnings
`_finish` itself emits before failing or succeeding. -/
def finalizeAll : List (List DInfo) → List (List DInfo) × List String
  | [] => ([], [])
  | s :: rest =>
    match seriesFinish s, finalizeAll rest with
    | (msgs, .ok _), (keep, more) => (s :: keep, msgs ++ more)
    | (msgs, .error _), (keep, more) => (keep, msgs ++ more)

/-- Whether `_finish` succeeds on a series (no exception raised). -/
def finishOk (s : List DInfo) : Bool :=
  match (seriesFinish s).2 with
  | .ok _ => true
  | .error _ => false

/-- A series of two slices that disagree on `Rows` (4 vs 6), triggering
`DimensionMismatch` in `_finish`. -/
def c8badA : DInfo := ⟨4, 5, (1, 1), some 0, 1, [4, 5], [1, 1]⟩

def c8badB : DInfo := ⟨6, 5, (1, 1), some 1, 2, [6, 5], [1, 1]⟩

/-- **C8, counterexample to the claim as stated**: a series failing finalize
with `DimensionMismatch` is dropped from the returned list, but *nothing* is
written to the progress sink — the claim's "logs the failure" does not hold
(`except Exception: pass` swallows it silently). -/
theorem c8_counterexample :
    (seriesFinish [c8badA, c8badB]).2 = Except.error SeriesErr.dimensionMismatch ∧
    finalizeAll [[c8badA, c8badB]] = ([], []) := by
  exact ⟨by decide, by decide⟩

/-- **C8** (amended).  The finalize loop keeps exactly the series whose
`_finish` succeeds — a series failing with `DimensionMismatch` is dropped
and the scan continues with the remaining series — and the only progress
sink writes are the messages `_finish` itself emitted (sampling warnings);
the failure itself is *not* logged. -/
theorem c8_finalize_drops (ss : List (List DInfo)) :
    finalizeAll ss =
      (ss.filter finishOk, (ss.map (fun s => (seriesFinish s).1)).flatten) := by
  induction ss with
  | nil => rfl
  | cons s rest ih =>
    unfold finalizeAll
    rw [ih]
    rcases hs : seriesFinish s with ⟨msgs, res⟩
    cases res with
    | ok v => simp [List.filter_cons, finishOk, hs]
    | error e => simp [List.filter_cons, finishOk, hs]

/-! ### C4: what `_finish` computes for a surviving multi-slice series -/

/-- Sum of consecutive `|ImagePositionPatient[2]|` differences along a walk
starting at `p` (absent positions default to 0; the walk only succeeds when
all positions are present, in which case the default is never used). -/
def zgapSum : DInfo → List DInfo → ℚ
  | _, [] => 0
  | p, d :: r => |p.zpos.getD 0 - d.zpos.getD 0| + zgapSum d r

theorem finishWalk_ok (dims : Nat × Nat) (samp : ℚ × ℚ) :
    ∀ (rest : List DInfo) (prev : DInfo) (dsum : ℚ) (msgs msgs' : List String)
      (dsum' : ℚ) (dlast : DInfo),
      finishWalk dims samp prev rest dsum msgs = (msgs', .ok (dsum', dlast)) →
      dlast = (prev :: rest).getLast (List.cons_ne_nil _ _) ∧
        dsum' = dsum + zgapSum prev rest := by
  intro rest
  induction rest with
  | nil =>
    intro prev dsum msgs msgs' dsum' dlast h
    unfold finishWalk at h
    simp only [Prod.mk.injEq, Except.ok.injEq] at h
    obtain ⟨-, h2, h3⟩ := h
    subst h2; subst h3
    exact ⟨rfl, by simp [zgapSum]⟩
  | cons d r ih =>
    intro prev dsum msgs msgs' dsum' dlast h
    unfold finishWalk at h
    cases hz1 : prev.zpos with
    | none => rw [hz1] at h; simp at h
    | some z1 =>
      cases hz2 : d.zpos with
      | none => rw [hz1, hz2] at h; simp at h
      | some z2 =>
        rw [hz1, hz2] at h
        dsimp only at h
        by_cases hd : (d.rows, d.columns) ≠ dims
        · rw [if_pos hd] at h; simp at h
        · rw [if_neg hd] at h
          obtain ⟨hl, hs⟩ := ih d _ _ _ _ _ h
          refine ⟨?_, ?_⟩
          · rw [hl, List.getLast_cons (List.cons_ne_nil _ _)]
          · rw [hs, zgapSum]
            simp only [hz1, hz2, Option.getD_some]
            ring

/-- **C4** (amended).  For a series of `N ≥ 2` slices that survives
finalize, the finalized info is a copy of the *first* slice's info with
`shape` overwritten to `(N, *last_slice.shape)` and `sampling` overwritten
to `(distance_mean, *last_slice.sampling)`, where `distance_mean` is the
mean of consecutive absolute `ImagePositionPatient[2]` differences. -/
theorem c4_series_finalize (d0 d1 : DInfo) (rest : List DInfo) (d : DInfo)
    (hok : (seriesFinish (d0 :: d1 :: rest)).2 = Except.ok (some d)) :
    d = { d0 with
          shape := ((d0 :: d1 :: rest).length : Int) ::
            ((d0 :: d1 :: rest).getLast (List.cons_ne_nil _ _)).shape,
          sampling := zgapSum d0 (d1 :: rest) / (((d0 :: d1 :: rest).length : ℚ) - 1) ::
            ((d0 :: d1 :: rest).getLast (List.cons_ne_nil _ _)).sampling } := by
  unfold seriesFinish at hok
  dsimp only at hok
  rcases hw : finishWalk (d0.rows, d0.columns) d0.pixelSpacing d0 (d0 :: d1 :: rest) 0 []
    with ⟨msgs, res⟩
  rw [hw] at hok
  cases res with
  | error e => simp at hok
  | ok p =>
    obtain ⟨dsum, dlast⟩ := p
    dsimp only at hok
    simp only [Except.ok.injEq, Option.some.injEq] at hok
    obtain ⟨hl, hs⟩ := finishWalk_ok _ _ _ _ _ _ _ _ _ hw
    have hz : zgapSum d0 (d0 :: d1 :: rest) = zgapSum d0 (d1 :: rest) := by
      rw [zgapSum]
      simp
    have hlast : dlast = (d0 :: d1 :: rest).getLast (List.cons_ne_nil _ _) := by
      rw [hl, List.getLast_cons (List.cons_ne_nil _ _)]
    rw [← hok, hlast, hs, hz, zero_add]

/-- Two slices agreeing on `Rows × Columns` and `PixelSpacing` but with
different stored `shape`/`sampling` tuples (a 2-frame slice followed by a
single-frame slice). -/
def c4first : DInfo := ⟨4, 5, (1, 1), some 0, 1, [2, 4, 5], [1, 1, 1]⟩

def c4last : DInfo := ⟨4, 5, (1, 1), some 1, 2, [4, 5], [1, 1]⟩

/-- **C4, counterexample to the claim as stated**: the finalized info of
`[c4first, c4last]` is *not* the first slice's info with
`shape = (N, *first.shape)` and `sampling = (mean, *first.sampling)` — the
code takes the tuples from the last slice. -/
theorem c4_counterexample :
    (seriesFinish [c4first, c4last]).2 ≠
      Except.ok (some { c4first with
        shape := (2 : Int) :: c4first.shape,
        sampling := (1 : ℚ) :: c4first.sampling }) := by
  norm_num [seriesFinish, finishWalk, c4first, c4last]

/-- Witness instantiating `c4_series_finalize` on the concrete two-slice
series above. -/
theorem c4_witness :
    ({ c4first with shape := [2, 4, 5], sampling := [1, 1, 1] } : DInfo) =
      { c4first with
        shape := (([c4first, c4last] : List DInfo).length : Int) ::
          (([c4first, c4last] : List DInfo).getLast (List.cons_ne_nil _ _)).shape,
        sampling := zgapSum c4first [c4last] /
            ((([c4first, c4last] : List DInfo).length : ℚ) - 1) ::
          (([c4first, c4last] : List DInfo).getLast (List.cons_ne_nil _ _)).sampling } :=
  c4_series_finalize c4first c4last [] _
    (by norm_num [seriesFinish, finishWalk, c4first, c4last])

/-! ### C5: the volume-boundary split -/

/-- The consecutive z-gaps along a walk starting at `p` (absent positions
default to 0; the walk only succeeds when all are present). -/
def gapsOf : DInfo → List DInfo → List ℚ
  | _, [] => []
  | p, d :: r => |p.zpos.getD 0 - d.zpos.getD 0| :: gapsOf d r

/-- The claim's split rule on the gap sequence: a bucket boundary is placed
exactly when the tracked `distance` is non-zero and the new gap exceeds
`2.1 ×` it; `distance` resets to 0 at a boundary and otherwise becomes the
new gap. -/
def claimFlags : ℚ → List ℚ → List Bool
  | _, [] => []
  | dist, g :: r =>
    if dist ≠ 0 ∧ g > 21 / 10 * dist then true :: claimFlags 0 r
    else false :: claimFlags g r

/-- Bucket sizes determined by boundary flags, the current bucket holding
`k` slices so far. -/
def bucketSizes : Nat → List Bool → List Nat
  | k, [] => [k]
  | k, true :: r => k :: bucketSizes 1 r
  | k, false :: r => bucketSizes (k + 1) r

theorem splitWalk_sizes :
    ∀ (rest : List DInfo) (prev : DInfo) (dist : ℚ) (cur : List DInfo)
      (bs : List (List DInfo)) (msgs : List String),
      splitWalk prev dist rest = .ok (cur, bs, msgs) →
      ∀ k, bucketSizes k (claimFlags dist (gapsOf prev rest)) =
        (k + cur.length) :: bs.map List.length := by
  intro rest
  induction rest with
  | nil =>
    intro prev dist cur bs msgs h k
    unfold splitWalk at h
    simp only [Except.ok.injEq, Prod.mk.injEq] at h
    obtain ⟨h1, h2, -⟩ := h
    subst h1; subst h2
    simp [gapsOf, claimFlags, bucketSizes]
  | cons d r ih =>
    intro prev dist cur bs msgs h k
    unfold splitWalk at h
    cases hz1 : prev.zpos with
    | none => rw [hz1] at h; simp at h
    | some z1 =>
      cases hz2 : d.zpos with
      | none => rw [hz1, hz2] at h; simp at h
      | some z2 =>
        rw [hz1, hz2] at h
        dsimp only at h
        have hg : gapsOf prev (d :: r) = |z1 - z2| :: gapsOf d r := by
          rw [gapsOf, hz1, hz2]
          rfl
        by_cases hc : dist ≠ 0 ∧ |z1 - z2| > 21 / 10 * dist
        · rw [if_pos hc] at h
          cases hw : splitWalk d 0 r with
          | error e => rw [hw] at h; simp at h
          | ok trip =>
            obtain ⟨cur', bs', msgs'⟩ := trip
            rw [hw] at h
            simp only [Except.ok.injEq, Prod.mk.injEq] at h
            obtain ⟨h1, h2, -⟩ := h
            subst h1; subst h2
            rw [hg, claimFlags, if_pos hc, bucketSizes, ih d 0 cur' bs' msgs' hw 1]
            simp [Nat.add_comm]
        · rw [if_neg hc] at h
          cases hw : splitWalk d |z1 - z2| r with
          | error e => rw [hw] at h; simp at h
          | ok trip =>
            obtain ⟨cur', bs', msgs'⟩ := trip
            rw [hw] at h
            simp only [Except.ok.injEq, Prod.mk.injEq] at h
            obtain ⟨h1, h2, -⟩ := h
            subst h1; subst h2
            rw [hg, claimFlags, if_neg hc, bucketSizes, ih d _ cur' bs' msgs' hw (k + 1)]
            simp only [List.length_cons]
            congr 1
            omega

/-- A slice with the given `InstanceNumber` and z-position (all other
attributes fixed). -/
def c5slice (i : Int) (z : ℚ) : DInfo := ⟨4, 5, (1, 1), some z, i, [4, 5], [1, 1]⟩

/-- The claim's example series: z-positions `0, 1, 2, 10, 11, 12`. -/
def c5series : List DInfo :=
  [c5slice 1 0, c5slice 2 1, c5slice 3 2, c5slice 4 10, c5slice 5 11, c5slice 6 12]

/-- **C5**.  Walking a series in `InstanceNumber`-sorted order, a new bucket
is started exactly when the tracked `distance` is non-zero and the new gap
exceeds `2.1 × distance` (with `distance` resetting at a boundary): the
bucket sizes produced by `splitSerieIfRequired` coincide with the ones
predicted by that rule on the gap sequence.  In particular the series with
z-positions `0, 1, 2, 10, 11, 12` splits into exactly two sub-series of 3
slices each. -/
theorem c5_volume_split :
    (∀ (L : List DInfo) (d0 : DInfo) (rest : List DInfo)
        (bs : List (List DInfo)) (msgs : List String) (z : ℚ),
        sortSeries L = d0 :: rest → d0.zpos = some z →
        splitSeries L = .ok (bs, msgs) →
        bs.map List.length = bucketSizes 1 (claimFlags 0 (gapsOf d0 rest))) ∧
    splitSeries c5series =
      .ok ([[c5slice 1 0, c5slice 2 1, c5slice 3 2],
            [c5slice 4 10, c5slice 5 11, c5slice 6 12]], []) := by
  constructor
  · intro L d0 rest bs msgs z hsort hz hok
    unfold splitSeries at hok
    rw [hsort] at hok
    dsimp only at hok
    rw [hz] at hok
    dsimp only at hok
    cases hw : splitWalk d0 0 rest with
    | error e => rw [hw] at hok; simp at hok
    | ok trip =>
      obtain ⟨cur, bs', msgs'⟩ := trip
      rw [hw] at hok
      simp only [Except.ok.injEq, Prod.mk.injEq] at hok
      obtain ⟨h1, -⟩ := hok
      subst h1
      rw [splitWalk_sizes rest d0 0 cur bs' msgs' hw 1]
      simp [Nat.add_comm]
  · norm_num [splitSeries, sortSeries, splitWalk, c5series, c5slice,
      List.insertionSort, List.orderedInsert]

/-- Witness instantiating the universally quantified part of C5 on the
example series. -/
theorem c5_witness :
    ([[c5slice 1 0, c5slice 2 1, c5slice 3 2],
      [c5slice 4 10, c5slice 5 11, c5slice 6 12]] : List (List DInfo)).map List.length =
      bucketSizes 1 (claimFlags 0 (gapsOf (c5slice 1 0)
        [c5slice 2 1, c5slice 3 2, c5slice 4 10, c5slice 5 11, c5slice 6 12])) :=
  c5_volume_split.1 c5series (c5slice 1 0)
    [c5slice 2 1, c5slice 3 2, c5slice 4 10, c5slice 5 11, c5slice 6 12]
    _ _ 0
    (by norm_num [sortSeries, c5series, c5slice, List.insertionSort, List.orderedInsert])
    rfl
    c5_volume_split.2

/-! ### C9: idempotence of the split -/

/-- Re-running the walk on the collected current bucket, from the same
start state, keeps it in one bucket. -/
theorem splitWalk_self :
    ∀ (rest : List DInfo) (prev : DInfo) (dist : ℚ) (cur : List DInfo)
      (bs : List (List DInfo)) (msgs : List String),
      splitWalk prev dist rest = .ok (cur, bs, msgs) →
      ∃ msgs', splitWalk prev dist cur = .ok (cur, [], msgs') := by
  intro rest
  induction rest with
  | nil =>
    intro prev dist cur bs msgs h
    unfold splitWalk at h
    simp only [Except.ok.injEq, Prod.mk.injEq] at h
    obtain ⟨h1, -, -⟩ := h
    subst h1
    exact ⟨[], rfl⟩
  | cons d r ih =>
    intro prev dist cur bs msgs h
    unfold splitWalk at h
    cases hz1 : prev.zpos with
    | none => rw [hz1] at h; simp at h
    | some z1 =>
      cases hz2 : d.zpos with
      | none => rw [hz1, hz2] at h; simp at h
      | some z2 =>
        rw [hz1, hz2] at h
        dsimp only at h
        by_cases hc : dist ≠ 0 ∧ |z1 - z2| > 21 / 10 * dist
        · rw [if_pos hc] at h
          cases hw : splitWalk d 0 r with
          | error e => rw [hw] at h; simp at h
          | ok trip =>
            obtain ⟨cur', bs', msgs'⟩ := trip
            rw [hw] at h
            simp only [Except.ok.injEq, Prod.mk.injEq] at h
            obtain ⟨h1, -, -⟩ := h
            subst h1
            exact ⟨[], rfl⟩
        · rw [if_neg hc] at h
          cases hw : splitWalk d |z1 - z2| r with
          | error e => rw [hw] at h; simp at h
          | ok trip =>
            obtain ⟨cur', bs', msgs'⟩ := trip
            rw [hw] at h
            simp only [Except.ok.injEq, Prod.mk.injEq] at h
            obtain ⟨h1, -, -⟩ := h
            subst h1
            obtain ⟨m2, hself⟩ := ih d |z1 - z2| cur' bs' msgs' hw
            refine ⟨(if dist ≠ 0 ∧ |z1 - z2| > 3 / 2 * dist then ["Warning: missing file"]
                     else []) ++ m2, ?_⟩
            unfold splitWalk
            rw [hz1, hz2]
            dsimp only
            rw [if_neg hc, hself]


/-- Every later bucket produced by the walk starts with a slice that has a
position, and re-walking its tail from the reset state keeps it whole. -/
theorem splitWalk_buckets :
    ∀ (rest : List DInfo) (prev : DInfo) (dist : ℚ) (cur : List DInfo)
      (bs : List (List DInfo)) (msgs : List String),
      splitWalk prev dist rest = .ok (cur, bs, msgs) →
      ∀ b ∈ bs, ∃ (h : DInfo) (t : List DInfo) (msgs' : List String) (z : ℚ),
        b = h :: t ∧ h.zpos = some z ∧ splitWalk h 0 t = .ok (t, [], msgs') := by
  intro rest
  induction rest with
  | nil =>
    intro prev dist cur bs msgs h
    unfold splitWalk at h
    simp only [Except.ok.injEq, Prod.mk.injEq] at h
    obtain ⟨-, h2, -⟩ := h
    subst h2
    intro b hb
    simp at hb
  | cons d r ih =>
    intro prev dist cur bs msgs h
    unfold splitWalk at h
    cases hz1 : prev.zpos with
    | none => rw [hz1] at h; simp at h
    | some z1 =>
      cases hz2 : d.zpos with
      | none => rw [hz1, hz2] at h; simp at h
      | some z2 =>
        rw [hz1, hz2] at h
        dsimp only at h
        by_cases hc : dist ≠ 0 ∧ |z1 - z2| > 21 / 10 * dist
        · rw [if_pos hc] at h
          cases hw : splitWalk d 0 r with
          | error e => rw [hw] at h; simp at h
          | ok trip =>
            obtain ⟨cur', bs', msgs'⟩ := trip
            rw [hw] at h
            simp only [Except.ok.injEq, Prod.mk.injEq] at h
            obtain ⟨-, h2, -⟩ := h
            subst h2
            intro b hb
            rcases List.mem_cons.mp hb with hb0 | hbs
            · subst hb0
              obtain ⟨m2, hself⟩ := splitWalk_self r d 0 cur' bs' msgs' hw
              exact ⟨d, cur', m2, z2, rfl, hz2, hself⟩
            · exact ih d 0 cur' bs' msgs' hw b hbs
        · rw [if_neg hc] at h
          cases hw : splitWalk d |z1 - z2| r with
          | error e => rw [hw] at h; simp at h
          | ok trip =>
            obtain ⟨cur', bs', msgs'⟩ := trip
            rw [hw] at h
            simp only [Except.ok.injEq, Prod.mk.injEq] at h
            obtain ⟨-, h2, -⟩ := h
            subst h2
            intro b hb
            exact ih d _ cur' bs' msgs' hw b hb

/-- The walk partitions the input: the current bucket's continuation
followed by the later buckets, concatenated, is the walked list. -/
theorem splitWalk_join :
    ∀ (rest : List DInfo) (prev : DInfo) (dist : ℚ) (cur : List DInfo)
      (bs : List (List DInfo)) (msgs : List String),
      splitWalk prev dist rest = .ok (cur, bs, msgs) →
      cur ++ bs.flatten = rest := by
  intro rest
  induction rest with
  | nil =>
    intro prev dist cur bs msgs h
    unfold splitWalk at h
    simp only [Except.ok.injEq, Prod.mk.injEq] at h
    obtain ⟨h1, h2, -⟩ := h
    subst h1; subst h2
    rfl
  | cons d r ih =>
    intro prev dist cur bs msgs h
    unfold splitWalk at h
    cases hz1 : prev.zpos with
    | none => rw [hz1] at h; simp at h
    | some z1 =>
      cases hz2 : d.zpos with
      | none => rw [hz1, hz2] at h; simp at h
      | some z2 =>
        rw [hz1, hz2] at h
        dsimp only at h
        by_cases hc : dist ≠ 0 ∧ |z1 - z2| > 21 / 10 * dist
        · rw [if_pos hc] at h
          cases hw : splitWalk d 0 r with
          | error e => rw [hw] at h; simp at h
          | ok trip =>
            obtain ⟨cur', bs', msgs'⟩ := trip
            rw [hw] at h
            simp only [Except.ok.injEq, Prod.mk.injEq] at h
            obtain ⟨h1, h2, -⟩ := h
            subst h1; subst h2
            simpa using ih d 0 cur' bs' msgs' hw
        · rw [if_neg hc] at h
          cases hw : splitWalk d |z1 - z2| r with
          | error e => rw [hw] at h; simp at h
          | ok trip =>
            obtain ⟨cur', bs', msgs'⟩ := trip
            rw [hw] at h
            simp only [Except.ok.injEq, Prod.mk.injEq] at h
            obtain ⟨h1, h2, -⟩ := h
            subst h1; subst h2
            simpa using ih d _ cur' bs' msgs' hw

/-- `serie._sort()` produces an `InstanceNumber`-sorted list. -/
theorem sortSeries_sorted (L : List DInfo) :
    (sortSeries L).Sorted (fun a b => a.instanceNumber ≤ b.instanceNumber) := by
  haveI : IsTotal DInfo (fun a b => a.instanceNumber ≤ b.instanceNumber) :=
    ⟨fun a b => Int.le_total _ _⟩
  haveI : IsTrans DInfo (fun a b => a.instanceNumber ≤ b.instanceNumber) :=
    ⟨fun a b c hab hbc => le_trans hab hbc⟩
  exact List.sorted_insertionSort _ _

/-- Sorting an already sorted series is the identity (the sort is stable). -/
theorem sortSeries_eq_of_sorted (L : List DInfo)
    (h : L.Sorted (fun a b => a.instanceNumber ≤ b.instanceNumber)) :
    sortSeries L = L :=
  List.Sorted.insertionSort_eq h

/-- **C9**.  The volume-boundary split is idempotent: every bucket produced
by `splitSerieIfRequired` is left whole by a second application of the split
procedure. -/
theorem c9_split_idempotent (L : List DInfo) (bs : List (List DInfo)) (msgs : List String)
    (hok : splitSeries L = .ok (bs, msgs)) :
    ∀ b ∈ bs, (splitSeries b).toOption.map Prod.fst = some [b] := by
  unfold splitSeries at hok
  cases hsort : sortSeries L with
  | nil => rw [hsort] at hok; simp at hok
  | cons d0 rest =>
    rw [hsort] at hok
    dsimp only at hok
    have hsorted := sortSeries_sorted L
    rw [hsort] at hsorted
    cases hz : d0.zpos with
    | none =>
      rw [hz] at hok
      simp only [Except.ok.injEq, Prod.mk.injEq] at hok
      obtain ⟨h1, -⟩ := hok
      subst h1
      intro b hb
      simp only [List.mem_singleton] at hb
      subst hb
      unfold splitSeries
      rw [sortSeries_eq_of_sorted _ hsorted]
      dsimp only
      rw [hz]
      rfl
    | some z =>
      rw [hz] at hok
      dsimp only at hok
      cases hw : splitWalk d0 0 rest with
      | error e => rw [hw] at hok; simp at hok
      | ok trip =>
        obtain ⟨cur, bs', msgs'⟩ := trip
        rw [hw] at hok
        simp only [Except.ok.injEq, Prod.mk.injEq] at hok
        obtain ⟨h1, -⟩ := hok
        subst h1
        have hjoin := splitWalk_join rest d0 0 cur bs' msgs' hw
        intro b hb
        rcases List.mem_cons.mp hb with hb0 | hbs
        · -- the first bucket `d0 :: cur`
          subst hb0
          obtain ⟨m2, hself⟩ := splitWalk_self rest d0 0 cur bs' msgs' hw
          have hsub : List.Sublist (d0 :: cur) (d0 :: rest) := by
            refine List.Sublist.cons₂ d0 ?_
            rw [← hjoin]
            exact (List.prefix_append cur bs'.flatten).sublist
          have hbsorted := hsorted.sublist hsub
          unfold splitSeries
          rw [sortSeries_eq_of_sorted _ hbsorted]
          dsimp only
          rw [hz]
          dsimp only
          rw [hself]
          rfl
        · -- a later bucket
          obtain ⟨hd, t, m2, z2, hbt, hz2, hw2⟩ :=
            splitWalk_buckets rest d0 0 cur bs' msgs' hw b hbs
          subst hbt
          have hsub : List.Sublist (hd :: t) (d0 :: rest) := by
            have hinf : (hd :: t) <:+: bs'.flatten := List.infix_of_mem_flatten hbs
            have hsuf : bs'.flatten <:+ rest := by
              rw [← hjoin]
              exact List.suffix_append cur bs'.flatten
            exact List.Sublist.cons d0 ((hinf.trans hsuf.isInfix).sublist)
          have hbsorted := hsorted.sublist hsub
          unfold splitSeries
          rw [sortSeries_eq_of_sorted _ hbsorted]
          dsimp only
          rw [hz2]
          dsimp only
          rw [hw2]
          rfl

/-- The series used to witness C9: z-positions `0, 1, 10` split into two
buckets (`9 > 2.1·1`). -/
def c9series : List DInfo := [c5slice 1 0, c5slice 2 1, c5slice 3 10]

/-- Witness instantiating `c9_split_idempotent` on the first bucket produced
from `c9series`. -/
theorem c9_witness :
    (splitSeries [c5slice 1 0, c5slice 2 1]).toOption.map Prod.fst =
      some [[c5slice 1 0, c5slice 2 1]] :=
  c9_split_idempotent c9series [[c5slice 1 0, c5slice 2 1], [c5slice 3 10]] []
    (by norm_num [splitSeries, sortSeries, splitWalk, c9series, c5slice,
      List.insertionSort, List.orderedInsert])
    [c5slice 1 0, c5slice 2 1] (by simp)

/-! ### Host dispatch (`DicomFormat.Reader._get_length` / `_get_data`) -/

/-- The host's `expect` values (`EXPECT_IM`/`MIM`/`VOL`/`MVOL`). -/
inductive Expect where
  | im | mim | vol | mvol
  deriving DecidableEq, Repr

/-- Which object `_get_data` serves the result from: a slice of the loaded
volume (`self._data[index]`), the whole loaded array (`self._data`), the
`index`-th dataset of the flattened series list
(`L[index].get_numpy_array()`), the `index`-th series as a volume, or an
`IndexError`. -/
inductive DataSel where
  | volSlice (i : Nat) | volWhole | flatItem (i : Nat) | serieVol (i : Nat) | idxError
  deriving DecidableEq, Repr

/-- `_get_length` (source lines 99–128).  `nslices` is `data.shape[0]` when
the loaded array is 3-D and 1 otherwise; `serieSizes` are the slice counts
of the series found in the directory. -/
def getLengthModel (e : Expect) (nslices : Nat) (serieSizes : List Nat) : Nat :=
  match e with
  | .im => nslices
  | .mim => if nslices > 1 then nslices else serieSizes.sum
  | .vol => if nslices > 1 then 1 else serieSizes.length
  | .mvol => serieSizes.length

/-- `_get_data` (source lines 130–162), as the selector of the object the
returned array comes from. -/
def getDataSel (e : Expect) (nslices index : Nat) : DataSel :=
  match e with
  | .im =>
    if nslices > 1 then .volSlice index
    else if index = 0 then .volWhole
    else .idxError
  | .mim => if index = 0 ∧ nslices > 1 then .volSlice index else .flatItem index
  | .vol | .mvol => if index = 0 ∧ nslices > 1 then .volWhole else .serieVol index

/-- **C6** (code bug).  With `expect = MULTI_IMAGE` and a loaded file of
`nslices = 2 > 1` slices, `length()` returns `nslices` as claimed, and the
fallback to flattening all series is claimed to happen only when
`nslices == 1` — but `_get_data` serves only index 0 from the loaded volume
(`if index==0 and nslices > 1`); every index ≥ 1 is taken from the
flattened series list (whose entries are whole files, not slices),
contradicting the `length()` contract.  This theorem evaluates the model at
the failing input. -/
theorem c6_mim_dispatch :
    getLengthModel .mim 2 [1, 1] = 2 ∧
    getDataSel .mim 2 0 = .volSlice 0 ∧
    getDataSel .mim 2 1 = .flatItem 1 ∧
    DataSel.flatItem 1 ≠ DataSel.volSlice 1 := by
  refine ⟨rfl, rfl, rfl, by decide⟩

/-! ### The single-file parse pipeline (`SimpleDicomReader`)

Decoded element values (`_converters`): `US`/`UL` produce integers, `DS`/
`IS`/`CS` produce numbers or number tuples via `_splitValues` (falling back
to the string when parsing fails), the string VRs produce strings, and
everything else (notably `OB`/`PixelData`) passes the bytes through.
Python floats are modelled as rationals built with `mkRat` from a decimal
parser (a faithful model of `float()` on the decimal/exponent strings DICOM
uses; `inf`/`nan`/underscore literals are not modelled), and Python's
text decoding is modelled for the ASCII range (a byte ≥ 128 raises
`UnicodeDecodeError` in the `ascii` codec; for the two UTF-8 VRs `LO`/`PN`
the model treats non-ASCII bytes as a decode failure as well). -/
inductive DicomValue where
  | nat (n : Nat)
  | int (n : Int)
  | rat (q : ℚ)
  | str (s : String)
  | bytes (b : List Nat)
  | rats (l : List ℚ)
  | ints (l : List Int)
  deriving DecidableEq, Repr

/-- Whitespace for Python's `str.strip()` / number parsing. -/
def isPySpace (c : Char) : Bool :=
  c = ' ' ∨ c = '\t' ∨ c = '\n' ∨ c = '\r' ∨ c = '\x0b' ∨ c = '\x0c'

def digitVal (c : Char) : Option Nat :=
  if '0' ≤ c ∧ c ≤ '9' then some (c.toNat - 48) else none

/-- Value of an all-digit string (`some 0` when empty; `none` on any
non-digit). -/
def digitsVal (cs : List Char) : Option Nat :=
  cs.foldl (fun acc c => acc.bind fun a => (digitVal c).map fun d => a * 10 + d) (some 0)

def stripPySpace (cs : List Char) : List Char :=
  ((cs.dropWhile isPySpace).reverse.dropWhile isPySpace).reverse

def splitAtChar (p : Char → Bool) : List Char → List Char × Option (List Char)
  | [] => ([], none)
  | c :: r =>
    if p c then ([], some r)
    else
      match splitAtChar p r with
      | (m, e) => (c :: m, e)

def parseSign : List Char → Int × List Char
  | '+' :: r => (1, r)
  | '-' :: r => (-1, r)
  | r => (1, r)

/-- Python's `float()` on the decimal/exponent syntax:
`[ws][sign]digits[.digits][(e|E)[sign]digits][ws]`. -/
def parseFloatQ (s : String) : Option ℚ :=
  let cs := stripPySpace s.toList
  let (sgn, cs) := parseSign cs
  let (mant, ex) := splitAtChar (fun c => c = 'e' ∨ c = 'E') cs
  let (ip, fp) := splitAtChar (fun c => c = '.') mant
  let fpcs := fp.getD []
  match digitsVal ip, digitsVal fpcs with
  | some ipv, some fpv =>
    if ip.isEmpty ∧ fpcs.isEmpty then none
    else
      let m : Int := sgn * (ipv * 10 ^ fpcs.length + fpv)
      match ex with
      | none => some (mkRat m (10 ^ fpcs.length))
      | some ecs =>
        let (esgn, ecs) := parseSign ecs
        match digitsVal ecs with
        | some ev =>
          if ecs.isEmpty then none
          else if esgn ≥ 0 then some (mkRat (m * 10 ^ ev) (10 ^ fpcs.length))
          else some (mkRat m (10 ^ (fpcs.length + ev)))
        | none => none
  | _, _ => none

/-- Python's `int()` on `[ws][sign]digits[ws]`. -/
def parseIntPy (s : String) : Option Int :=
  let cs := stripPySpace s.toList
  let (sgn, cs) := parseSign cs
  match digitsVal cs with
  | some v => if cs.isEmpty then none else some (sgn * v)
  | none => none

/-- `bytes.decode('ascii')`: fails on any byte ≥ 128. -/
def asciiDecode (bs : List Nat) : Option (List Char) :=
  if bs.all (· < 128) then some (bs.map Char.ofNat) else none

/-- `str.strip('\x00')`: NUL bytes removed from both ends. -/
def stripNul (cs : List Char) : List Char :=
  ((cs.dropWhile (· = '\x00')).reverse.dropWhile (· = '\x00')).reverse

/-- `str.rstrip()`. -/
def rstripPy (cs : List Char) : List Char :=
  (cs.reverse.dropWhile isPySpace).reverse

/-- Split a string on `'\\'` like Python's `str.split`. -/
def splitBackslash : List Char → List (List Char)
  | [] => [[]]
  | c :: r =>
    match splitBackslash r with
    | t :: ts => if c = '\\' then [] :: t :: ts else (c :: t) :: ts
    | [] => [[c]]

/-- Result of applying a VR converter: a value, a `struct.error` (caught by
the body scan's `try`, terminating it), or a fatal exception
(`UnicodeDecodeError`, which propagates and fails the parse). -/
inductive ConvResult where
  | ok (v : DicomValue) | endLoop | fatal
  deriving DecidableEq, Repr

/-- `_splitValues(x, float, '\\')` (also used for `CS`). -/
def splitValuesFloat (bs : List Nat) : ConvResult :=
  match asciiDecode bs with
  | none => .fatal
  | some cs0 =>
    let cs := stripNul cs0
    if cs.contains '\\' then
      let toks := (splitBackslash cs).filter (· ≠ [])
      match (toks.map (fun t => parseFloatQ (String.mk t))).allSome with
      | some vals => .ok (.rats vals)
      | none => .ok (.str (String.mk cs))
    else
      match parseFloatQ (String.mk cs) with
      | some v => .ok (.rat v)
      | none => .ok (.str (String.mk cs))

/-- `_splitValues(x, int, '\\')`. -/
def splitValuesInt (bs : List Nat) : ConvResult :=
  match asciiDecode bs with
  | none => .fatal
  | some cs0 =>
    let cs := stripNul cs0
    if cs.contains '\\' then
      let toks := (splitBackslash cs).filter (· ≠ [])
      match (toks.map (fun t => parseIntPy (String.mk t))).allSome with
      | some vals => .ok (.ints vals)
      | none => .ok (.str (String.mk cs))
    else
      match parseIntPy (String.mk cs) with
      | some v => .ok (.int v)
      | none => .ok (.str (String.mk cs))

/-- The `_converters` table, keyed by the dictionary VR (the body scan
converts with the VR from `MINIDICT`, not the wire VR). -/
def convertValue (vr : String) (little : Bool) (raw : List Nat) : ConvResult :=
  if vr = "US" then
    match raw with
    | [b0, b1] => .ok (.nat (unpack16 little b0 b1))
    | _ => .endLoop
  else if vr = "UL" then
    match raw with
    | [b0, b1, b2, b3] => .ok (.nat (unpack32 little b0 b1 b2 b3))
    | _ => .endLoop
  else if vr = "DS" ∨ vr = "CS" then splitValuesFloat raw
  else if vr = "IS" then splitValuesInt raw
  else if vr = "AS" ∨ vr = "DA" ∨ vr = "TM" ∨ vr = "UI" then
    match asciiDecode raw with
    | none => .fatal
    | some cs => .ok (.str (String.mk (stripNul cs)))
  else if vr = "LO" ∨ vr = "PN" then
    match asciiDecode raw with
    | none => .fatal
    | some cs => .ok (.str (String.mk (rstripPy (stripNul cs))))
  else .ok (.bytes raw)

/-- `MINIDICT`, in source order.  The source's dict literal repeats the keys
`(0x0020, 0x0016)` and `(0x0020, 0x0018)`; Python keeps the *later* entry,
which `miniDictLookup` reproduces. -/
def miniDict : List ((Nat × Nat) × String × String) :=
  [((0x7FE0, 0x0010), ("PixelData", "OB")),
   ((0x0008, 0x0020), ("StudyDate", "DA")),
   ((0x0008, 0x0021), ("SeriesDate", "DA")),
   ((0x0008, 0x0022), ("AcquisitionDate", "DA")),
   ((0x0008, 0x0023), ("ContentDate", "DA")),
   ((0x0008, 0x0030), ("StudyTime", "TM")),
   ((0x0008, 0x0031), ("SeriesTime", "TM")),
   ((0x0008, 0x0032), ("AcquisitionTime", "TM")),
   ((0x0008, 0x0033), ("ContentTime", "TM")),
   ((0x0008, 0x0060), ("Modality", "CS")),
   ((0x0008, 0x0070), ("Manufacturer", "LO")),
   ((0x0008, 0x0080), ("InstitutionName", "LO")),
   ((0x0008, 0x1030), ("StudyDescription", "LO")),
   ((0x0008, 0x103E), ("SeriesDescription", "LO")),
   ((0x0020, 0x0016), ("SOPClassUID", "UI")),
   ((0x0020, 0x0018), ("SOPInstanceUID", "UI")),
   ((0x0020, 0x000D), ("StudyInstanceUID", "UI")),
   ((0x0020, 0x000E), ("SeriesInstanceUID", "UI")),
   ((0x0008, 0x0117), ("ContextUID", "UI")),
   ((0x0020, 0x0011), ("SeriesNumber", "IS")),
   ((0x0020, 0x0012), ("AcquisitionNumber", "IS")),
   ((0x0020, 0x0013), ("InstanceNumber", "IS")),
   ((0x0020, 0x0014), ("IsotopeNumber", "IS")),
   ((0x0020, 0x0015), ("PhaseNumber", "IS")),
   ((0x0020, 0x0016), ("IntervalNumber", "IS")),
   ((0x0020, 0x0017), ("TimeSlotNumber", "IS")),
   ((0x0020, 0x0018), ("AngleNumber", "IS")),
   ((0x0020, 0x0019), ("ItemNumber", "IS")),
   ((0x0020, 0x0020), ("PatientOrientation", "CS")),
   ((0x0020, 0x0030), ("ImagePosition", "CS")),
   ((0x0020, 0x0032), ("ImagePositionPatient", "CS")),
   ((0x0020, 0x0035), ("ImageOrientation", "CS")),
   ((0x0020, 0x0037), ("ImageOrientationPatient", "CS")),
   ((0x0010, 0x0010), ("PatientName", "PN")),
   ((0x0010, 0x0020), ("PatientID", "LO")),
   ((0x0010, 0x0030), ("PatientBirthDate", "DA")),
   ((0x0010, 0x0040), ("PatientSex", "CS")),
   ((0x0010, 0x1010), ("PatientAge", "AS")),
   ((0x0010, 0x1020), ("PatientSize", "DS")),
   ((0x0010, 0x1030), ("PatientWeight", "DS")),
   ((0x0028, 0x0002), ("SamplesPerPixel", "US")),
   ((0x0028, 0x0008), ("NumberOfFrames", "IS")),
   ((0x0028, 0x0100), ("BitsAllocated", "US")),
   ((0x0028, 0x0101), ("BitsStored", "US")),
   ((0x0028, 0x0102), ("HighBit", "US")),
   ((0x0028, 0x0103), ("PixelRepresentation", "US")),
   ((0x0028, 0x0010), ("Rows", "US")),
   ((0x0028, 0x0011), ("Columns", "US")),
   ((0x0028, 0x0052), ("RescaleIntercept", "DS")),
   ((0x0028, 0x0053), ("RescaleSlope", "DS")),
   ((0x0028, 0x0030), ("PixelSpacing", "DS")),
   ((0x0018, 0x0088), ("SliceSpacing", "DS"))]

/-- `MINIDICT.get((group, element))` with Python's last-key-wins dict
semantics. -/
def miniDictLookup (group elem : Nat) : Option (String × String) :=
  (miniDict.reverse.find? (fun p => p.1 = (group, elem))).map (·.2)

/-- The `GROUPS` set: group codes of the whitelisted tags. -/
def interestingGroups : List Nat := (miniDict.map (fun p => p.1.1)).dedup

/-- `EOFError` / `struct.error` inside `_readDataElement` — both are caught
by the same handlers upstream. -/
inductive RErr where
  | strucErr | eofErr
  deriving DecidableEq, Repr

/-- `struct.unpack(prefix+'H', f.read(2))`: fails unless exactly 2 bytes
remain to be read. -/
def read16 (s : List Nat) (little : Bool) (pos : Nat) : Except RErr Nat :=
  match (s.drop pos).take 2 with
  | [b0, b1] => .ok (unpack16 little b0 b1)
  | _ => .error .strucErr

/-- `struct.unpack(prefix+'I', f.read(4))`. -/
def read32 (s : List Nat) (little : Bool) (pos : Nat) : Except RErr Nat :=
  match (s.drop pos).take 4 with
  | [b0, b1, b2, b3] => .ok (unpack32 little b0 b1 b2 b3)
  | _ => .error .strucErr

/-- The placeholder value stored for the deferred pixel element. -/
def deferredPixelValue : List Nat :=
  "Deferred loading of pixel data".toList.map Char.toNat

/-- The value-length part of `_readDataElement`: in implicit mode a 32-bit
length; in explicit mode `vr = f.read(2)` (no error on a short read here),
then for the long VRs `OB`/`OW`/`SQ`/`UN` a 2-byte reserved field and a
32-bit length, otherwise a 16-bit length.  Returns the length and the
offset of the value. -/
def readLength (s : List Nat) (implicitVR little : Bool) (pos : Nat) :
    Except RErr (Nat × Nat) :=
  if implicitVR then
    match read32 s little (pos + 4) with
    | .error e => .error e
    | .ok vl => .ok (vl, pos + 8)
  else
    if (s.drop (pos + 4)).take 2 = [79, 66] ∨ (s.drop (pos + 4)).take 2 = [79, 87] ∨
        (s.drop (pos + 4)).take 2 = [83, 81] ∨ (s.drop (pos + 4)).take 2 = [85, 78] then
      match read32 s little (pos + 8) with
      | .error e => .error e
      | .ok vl => .ok (vl, pos + 12)
    else
      match read16 s little (pos + 6) with
      | .error e => .error e
      | .ok vl => .ok (vl, pos + 8)

/-- The value part of `_readDataElement`, given the decoded tag and the
length result: the pixel tag is deferred (cursor seeks past the value), a
`0xFFFFFFFF` length triggers the undefined-length scan, otherwise the value
bytes are read. -/
def readValue (s : List Nat) (little : Bool) (group elem : Nat) :
    Except RErr (Nat × Nat) →
    Except RErr ((Nat × Nat × List Nat) × Nat × Option (Nat × Nat))
  | .error e => .error e
  | .ok (vl, hdr) =>
    if group = 0x7FE0 ∧ elem = 0x0010 then
      .ok ((group, elem, deferredPixelValue), hdr + vl, some (hdr, vl))
    else if vl = 0xFFFFFFFF then
      match undefinedLengthScan little s hdr with
      | some (v, pos') => .ok ((group, elem, v), pos', none)
      | none => .error .eofErr
    else
      .ok ((group, elem, (s.drop hdr).take vl), hdr + vl, none)

/-- `_readDataElement` (source lines 404–430) on a stream positioned at
`pos`: read group and element (as 16-bit unsigned in the current
endianness), then the length and the value. -/
def readElement (s : List Nat) (implicitVR little : Bool) (pos : Nat) :
    Except RErr ((Nat × Nat × List Nat) × Nat × Option (Nat × Nat)) :=
  match read16 s little pos with
  | .error e => .error e
  | .ok group =>
    match read16 s little (pos + 2) with
    | .error e => .error e
    | .ok elem => readValue s little group elem (readLength s implicitVR little pos)

/-- Parse failures of `SimpleDicomReader._read`, named after the Python
exceptions/spec error kinds they correspond to. -/
inductive PErr where
  | notADicom          -- NotADicomFile
  | headerEndOfStream  -- RuntimeError('End of file reached while still reading header.')
  | unicodeError       -- UnicodeDecodeError (not caught anywhere)
  | unsupportedTS      -- RuntimeError for an unknown TransferSyntaxUID
  | inflateError       -- zlib.error from _inflate
  | attrError          -- AttributeError from a missing required tag
  | typeError          -- TypeError (comparison/subscript on a wrong type)
  | indexError         -- IndexError (PixelSpacing with < 2 components)
  | valueError         -- ValueError (float() on a non-numeric character)
  | unsupportedLayout  -- NotImplementedError (SamplesPerPixel>1, BitsAllocated≠8)
  deriving DecidableEq, Repr

/-- The meta-header scan of `_read_header` (lines 476–489): fixed explicit
little-endian mode, elements read until the first non-group-2 element
(whose start offset becomes the body start); on tag `(0x0002, 0x0010)` the
`TransferSyntaxUID` is recorded (ASCII-decoded, NULs stripped).  A short
read raises.  (The side effect of the peeked body element on the deferred
pixel location is immaterial: the body scan re-reads the same element and
records the same location.) -/
def headerLoop (s : List Nat) : Nat → Nat → Option String →
    Except PErr (Option String × Nat)
  | 0, _, _ => .error .headerEndOfStream
  | fuel + 1, pos, ts =>
    match readElement s false true pos with
    | .error _ => .error .headerEndOfStream
    | .ok ((group, elem, value), pos', _) =>
      if group = 2 then
        if elem = 0x10 then
          match asciiDecode value with
          | none => .error .unicodeError
          | some cs => headerLoop s fuel pos' (some (String.mk (stripNul cs)))
        else headerLoop s fuel pos' ts
      else .ok (ts, pos)

/-- `info[name] = value`: replace in place or append (Python dict update). -/
def insertInfo : List (String × DicomValue) → String → DicomValue →
    List (String × DicomValue)
  | [], k, v => [(k, v)]
  | (k', v') :: t, k, v =>
    if k' = k then (k, v) :: t else (k', v') :: insertInfo t k v

/-- The body scan `_read_data_elements` (lines 516–532): elements are read
until `EOFError`/`struct.error` (normal termination, including a
`struct.error` raised by a converter); whitelisted tags are converted and
stored under their canonical name; a `UnicodeDecodeError` propagates. -/
def bodyLoop (s : List Nat) (implicitVR little : Bool) :
    Nat → Nat → List (String × DicomValue) → Option (Nat × Nat) →
    Except PErr (List (String × DicomValue) × Option (Nat × Nat))
  | 0, _, info, ploc => .ok (info, ploc)
  | fuel + 1, pos, info, ploc =>
    match readElement s implicitVR little pos with
    | .error _ => .ok (info, ploc)
    | .ok ((group, elem, value), pos', ploc') =>
      let ploc2 := ploc' <|> ploc
      if interestingGroups.contains group then
        match miniDictLookup group elem with
        | some (name, vr) =>
          match convertValue vr little value with
          | .ok v => bodyLoop s implicitVR little fuel pos' (insertInfo info name v) ploc2
          | .endLoop => .ok (info, ploc2)
          | .fatal => .error .unicodeError
        | none => bodyLoop s implicitVR little fuel pos' info ploc2
      else bodyLoop s implicitVR little fuel pos' info ploc2

/-- Attribute access `self.Name` (raises `AttributeError` when absent). -/
def getAttr (info : List (String × DicomValue)) (name : String) :
    Except PErr DicomValue :=
  match info.lookup name with
  | some v => .ok v
  | none => .error .attrError

/-- An attribute used as a number (`US` values; anything else would make
the Python comparison raise `TypeError`). -/
def asNat : DicomValue → Except PErr Nat
  | .nat n => .ok n
  | _ => .error .typeError

/-- `float(v[i])`: tuple indexing (DS tuples hold floats), or string
indexing followed by `float()` of a single character (which succeeds
exactly on digits); anything else is not subscriptable. -/
def indexFloat (v : DicomValue) (i : Nat) : Except PErr ℚ :=
  match v with
  | .rats l =>
    match l.get? i with
    | some q => .ok q
    | none => .error .indexError
  | .str s =>
    match s.toList.get? i with
    | some c =>
      match digitVal c with
      | some d => .ok (mkRat d 1)
      | none => .error .valueError
    | none => .error .indexError
  | _ => .error .typeError

/-- `abs(self.SliceSpacing)`: defined for a float scalar only. -/
def absFloat : DicomValue → Except PErr ℚ
  | .rat q => .ok (mkRat q.num.natAbs q.den)
  | _ => .error .typeError

/-- The shape derivation of `_get_shape_and_sampling` (lines 574–586). -/
def shapeOf (info : List (String × DicomValue)) : Except PErr (List Int) := do
  let frames ←
    match info.lookup "NumberOfFrames" with
    | none => pure none
    | some (.int n) => pure (if n > 1 then some n else none)
    | some _ => throw .typeError
  match frames with
  | some nf => do
    let spp ← asNat (← getAttr info "SamplesPerPixel")
    if spp > 1 then do
      let rows ← asNat (← getAttr info "Rows")
      let cols ← asNat (← getAttr info "Columns")
      pure [(spp : Int), nf, (rows : Int), (cols : Int)]
    else do
      let rows ← asNat (← getAttr info "Rows")
      let cols ← asNat (← getAttr info "Columns")
      pure [nf, (rows : Int), (cols : Int)]
  | none => do
    let spp ← asNat (← getAttr info "SamplesPerPixel")
    if spp > 1 then do
      let ba ← asNat (← getAttr info "BitsAllocated")
      if ba = 8 then do
        let rows ← asNat (← getAttr info "Rows")
        let cols ← asNat (← getAttr info "Columns")
        pure [(spp : Int), (rows : Int), (cols : Int)]
      else throw .unsupportedLayout
    else do
      let rows ← asNat (← getAttr info "Rows")
      let cols ← asNat (← getAttr info "Columns")
      pure [(rows : Int), (cols : Int)]

/-- The raw sampling of `_get_shape_and_sampling` before the length fixup
(lines 589–591): `(PixelSpacing[0], PixelSpacing[1])`, prefixed by
`abs(SliceSpacing)` when present. -/
def rawSampling (info : List (String × DicomValue)) : Except PErr (List ℚ) := do
  let ps ← getAttr info "PixelSpacing"
  let p0 ← indexFloat ps 0
  let p1 ← indexFloat ps 1
  match info.lookup "SliceSpacing" with
  | none => pure [p0, p1]
  | some v => do
    let sl ← absFloat v
    pure [sl, p0, p1]

/-- `_get_shape_and_sampling` (lines 568–598): derive the shape, derive the
raw sampling, then force `len(sampling) == len(shape)` by padding with 1.0
at the front or keeping only the trailing `len(shape)` entries
(`(1.0,)*(len(shape)-len(sampling)) + sampling[-len(shape):]`). -/
def getShapeSampling (info : List (String × DicomValue)) :
    Except PErr (List Int × List ℚ) :=
  match shapeOf info with
  | .error e => .error e
  | .ok shape =>
    match rawSampling info with
    | .error e => .error e
    | .ok raw =>
      .ok (shape, List.replicate (shape.length - raw.length) (1 : ℚ) ++
        raw.drop (raw.length - shape.length))

/-- The result of a successful metadata parse: the collected tag map, the
transfer syntax (stored in `info['TransferSyntaxUID']` by the source; kept
as a separate field here because it may be Python `None`), the deferred
pixel-data location, and the derived `shape`/`sampling`. -/
structure Dataset where
  info : List (String × DicomValue)
  tsuid : Option String
  pixelLoc : Option (Nat × Nat)
  shape : List Int
  sampling : List ℚ
  deriving DecidableEq, Repr

def dicmMagic : List Nat := [68, 73, 67, 77]

/-- `SimpleDicomReader._read` (lines 388–401): check the `DICM` magic at
offset 128, scan the meta-header, resolve the transfer syntax (possibly
inflating the rest of the stream through the supplied raw-DEFLATE oracle,
which models `zlib.decompress(..., -zlib.MAX_WBITS)`), scan the body, and
derive shape and sampling.  The fuel `length + 1` always suffices: every
element consumes at least 8 bytes. -/
def parseFile (inflate : List Nat → Except Unit (List Nat)) (s : List Nat) :
    Except PErr Dataset :=
  if (s.drop 128).take 4 ≠ dicmMagic then .error .notADicom
  else
    match headerLoop s (s.length + 1) 132 none with
    | .error e => .error e
    | .ok (ts, pos) =>
      match transferSyntaxMode ts with
      | .error () => .error .unsupportedTS
      | .ok mode =>
        let body : Except PErr (List Nat × Nat) :=
          if mode.deflated then
            match inflate (s.drop pos) with
            | .ok bts => .ok (bts, 0)
            | .error () => .error .inflateError
          else .ok (s, pos)
        match body with
        | .error e => .error e
        | .ok (s2, pos2) =>
          match bodyLoop s2 mode.implicitVR mode.littleEndian (s2.length + 1) pos2 [] none with
          | .error e => .error e
          | .ok (info, ploc) =>
            match getShapeSampling info with
            | .error e => .error e
            | .ok (shape, samp) => .ok ⟨info, ts, ploc, shape, samp⟩

/-! ### C7: a file with only a meta-header -/

/-- A meta-header data element: element code, the two VR bytes, and the
payload (explicit VR little endian, short length form). -/
structure MetaElem where
  elem : Nat
  vr0 : Nat
  vr1 : Nat
  payload : List Nat
  deriving DecidableEq, Repr

/-- Encode one group-2 element in explicit little-endian short form. -/
def encMetaElem (m : MetaElem) : List Nat :=
  pack16 true 2 ++ pack16 true m.elem ++ [m.vr0, m.vr1] ++
    pack16 true m.payload.length ++ m.payload

/-- Encode a meta-header. -/
def encMeta (ms : List MetaElem) : List Nat := (ms.map encMetaElem).flatten

/-- Well-formedness of an encodable meta element: the codes fit in 16 bits,
the VR is a short (not `OB`/`OW`/`SQ`/`UN`) form, and the payload is ASCII
(so recording the transfer syntax UID cannot raise `UnicodeDecodeError`). -/
def validMetaElem (m : MetaElem) : Prop :=
  m.elem < 65536 ∧ m.payload.length < 65536 ∧
  ¬([m.vr0, m.vr1] = [79, 66] ∨ [m.vr0, m.vr1] = [79, 87] ∨
    [m.vr0, m.vr1] = [83, 81] ∨ [m.vr0, m.vr1] = [85, 78]) ∧
  ∀ b ∈ m.payload, b < 128

instance (m : MetaElem) : Decidable (validMetaElem m) := by
  unfold validMetaElem
  infer_instance

theorem length_encMetaElem (m : MetaElem) :
    (encMetaElem m).length = 8 + m.payload.length := by
  simp [encMetaElem, pack16]
  omega

/-- Reading back an encoded group-2 element. -/
theorem readElement_encMetaElem (m : MetaElem) (hm : validMetaElem m)
    (s rest : List Nat) (pos : Nat) (hs : s.drop pos = encMetaElem m ++ rest) :
    readElement s false true pos =
      .ok ((2, m.elem, m.payload), pos + 8 + m.payload.length, none) := by
  obtain ⟨helem, hlen, hvr, -⟩ := hm
  have henc : encMetaElem m ++ rest =
      2 :: 0 :: (m.elem % 256) :: (m.elem / 256 % 256) :: m.vr0 :: m.vr1 ::
        (m.payload.length % 256) :: (m.payload.length / 256 % 256) ::
        (m.payload ++ rest) := by
    simp [encMetaElem, pack16]
  rw [henc] at hs
  have hd : ∀ k : Nat, s.drop (pos + k) = (s.drop pos).drop k := by
    intro k
    rw [List.drop_drop]
  have h0 : read16 s true pos = .ok 2 := by
    rw [read16, hs]
    simp [unpack16]
  have h2 : read16 s true (pos + 2) = .ok m.elem := by
    rw [read16, hd 2, hs]
    have : m.elem % 256 + 256 * (m.elem / 256 % 256) = m.elem := by
      have h1 := Nat.div_add_mod m.elem 256
      have h2 := Nat.mod_eq_of_lt (show m.elem / 256 < 256 by omega)
      omega
    simp [unpack16, this]
  have hvrb : (s.drop (pos + 4)).take 2 = [m.vr0, m.vr1] := by
    rw [hd 4, hs]
    rfl
  have h6 : read16 s true (pos + 6) = .ok m.payload.length := by
    rw [read16, hd 6, hs]
    have : m.payload.length % 256 + 256 * (m.payload.length / 256 % 256) =
        m.payload.length := by
      have h1 := Nat.div_add_mod m.payload.length 256
      have h2 := Nat.mod_eq_of_lt (show m.payload.length / 256 < 256 by omega)
      omega
    simp [unpack16, this]
  have h8 : (s.drop (pos + 8)).take m.payload.length = m.payload := by
    rw [hd 8, hs]
    simp only [List.drop_succ_cons, List.drop_zero]
    exact List.take_left _ _
  have hg : ¬(2 = 0x7FE0 ∧ m.elem = 0x0010) := by omega
  have hlen2 : readLength s false true pos = .ok (m.payload.length, pos + 8) := by
    rw [readLength, if_neg (by simp), hvrb, if_neg hvr, h6]
  rw [readElement, h0, h2]
  dsimp only
  rw [hlen2]
  simp only [readValue]
  rw [if_neg hg, if_neg (show ¬m.payload.length = 0xFFFFFFFF by omega), h8]

theorem encMeta_length_ge (ms : List MetaElem) : ms.length ≤ (encMeta ms).length := by
  induction ms with
  | nil => simp [encMeta]
  | cons m t ih =>
    simp only [encMeta, List.map_cons, List.flatten_cons, List.length_append,
      List.length_cons] at *
    rw [length_encMetaElem]
    omega

/-- The header scan of a stream that ends right after its group-2 elements
raises the header end-of-stream error. -/
theorem headerLoop_encMeta (ms : List MetaElem) (hv : ∀ m ∈ ms, validMetaElem m) :
    ∀ (fuel pos : Nat) (ts : Option String) (s : List Nat),
      s.drop pos = encMeta ms → ms.length < fuel →
      headerLoop s fuel pos ts = .error .headerEndOfStream := by
  induction ms with
  | nil =>
    intro fuel pos ts s hs hfuel
    obtain ⟨f, rfl⟩ : ∃ f, fuel = f + 1 := ⟨fuel - 1, by omega⟩
    rw [headerLoop]
    have hre : read16 s true pos = .error .strucErr := by
      rw [read16, hs]
      rfl
    rw [readElement, hre]
  | cons m t ih =>
    intro fuel pos ts s hs hfuel
    obtain ⟨f, rfl⟩ : ∃ f, fuel = f + 1 := ⟨fuel - 1, by omega⟩
    have hm := hv m (by simp)
    have hs' : s.drop pos = encMetaElem m ++ encMeta t := by
      rw [hs]
      simp [encMeta]
    rw [headerLoop, readElement_encMetaElem m hm s (encMeta t) pos hs']
    dsimp only
    have hnext : s.drop (pos + 8 + m.payload.length) = encMeta t := by
      have : s.drop (pos + 8 + m.payload.length) =
          (s.drop pos).drop (8 + m.payload.length) := by
        rw [List.drop_drop, Nat.add_assoc]
      rw [this, hs', ← length_encMetaElem m, List.drop_left]
    have hrec : ∀ ts', headerLoop s f (pos + 8 + m.payload.length) ts' =
        .error .headerEndOfStream := by
      intro ts'
      exact ih (fun x hx => hv x (by simp [hx])) f _ ts' s hnext (by simp at hfuel ⊢; omega)
    by_cases he : m.elem = 0x10
    · have hdec : asciiDecode m.payload = some (m.payload.map Char.ofNat) := by
        rw [asciiDecode, if_pos]
        exact List.all_eq_true.mpr (fun b hb => by
          simpa using hm.2.2.2 b (by simpa using hb))
      rw [if_pos rfl, if_pos he, hdec]
      exact hrec _
    · rw [if_pos rfl, if_neg he]
      exact hrec _

/-- **C7** (amended).  For a file consisting of a valid preamble, the
`DICM` magic and a meta-header of group-2 elements but *no body elements*,
parsing does not succeed: `_read_header` hits the end of the stream while
looking for the first non-group-2 element and raises the header
end-of-stream error, so no Dataset (with or without a `shape` entry) is
produced and `get_pixel_array` is never reachable. -/
theorem c7_meta_only_parse (ms : List MetaElem) (hv : ∀ m ∈ ms, validMetaElem m)
    (inflate : List Nat → Except Unit (List Nat)) :
    parseFile inflate (List.replicate 128 0 ++ dicmMagic ++ encMeta ms) =
      .error .headerEndOfStream := by
  rw [parseFile]
  have hdrop : (List.replicate 128 0 ++ dicmMagic ++ encMeta ms).drop 128 =
      dicmMagic ++ encMeta ms := by
    rw [List.append_assoc]
    exact List.drop_left' (by simp)
  have hmagic : ((List.replicate 128 0 ++ dicmMagic ++ encMeta ms).drop 128).take 4 =
      dicmMagic := by
    rw [hdrop]
    exact List.take_left' (by simp [dicmMagic])
  rw [if_neg (by rw [hmagic]; simp)]
  have h132 : (List.replicate 128 0 ++ dicmMagic ++ encMeta ms).drop 132 = encMeta ms := by
    have : (List.replicate 128 0 ++ dicmMagic ++ encMeta ms).drop 132 =
        ((List.replicate 128 0 ++ dicmMagic ++ encMeta ms).drop 128).drop 4 := by
      rw [List.drop_drop]
    rw [this, hdrop]
    rfl
  have hfuel : ms.length < (List.replicate 128 0 ++ dicmMagic ++ encMeta ms).length + 1 := by
    have := encMeta_length_ge ms
    simp only [List.length_append]
    omega
  rw [headerLoop_encMeta ms hv _ 132 none _ h132 hfuel]

/-- The transfer-syntax UID payload used by the concrete examples. -/
def tsUID : List Nat := "1.2.840.10008.1.2.1".toList.map Char.toNat

/-- A concrete file holding only a preamble, the magic and one meta-header
element (the `TransferSyntaxUID`). -/
def c7file : List Nat :=
  List.replicate 128 0 ++ dicmMagic ++
  ([2, 0, 16, 0] ++ [85, 73] ++ [19, 0] ++ tsUID)

set_option maxRecDepth 40000 in
/-- **C7, counterexample to the claim as stated**: parsing the meta-only
file *fails* (with the header end-of-stream error) instead of succeeding
with a `shape`-less Dataset. -/
theorem c7_counterexample :
    parseFile (fun _ => Except.error ()) c7file = Except.error .headerEndOfStream := by
  decide

/-- Witness instantiating `c7_meta_only_parse` on a concrete meta-header. -/
theorem c7_witness :
    parseFile (fun _ => Except.error ())
      (List.replicate 128 0 ++ dicmMagic ++ encMeta [⟨16, 85, 73, tsUID⟩]) =
      .error .headerEndOfStream :=
  c7_meta_only_parse [⟨16, 85, 73, tsUID⟩] (by decide) _

/-! ### C10: the sampling tuple always matches the shape tuple -/

/-- **C10**.  After every successful single-file parse, the Dataset's
`sampling` tuple has exactly as many elements as its `shape` tuple: it is
the raw sampling (`PixelSpacing[0]`, `PixelSpacing[1]`, optionally prefixed
by `|SliceSpacing|`) padded at the front with `1.0` when shorter and with
the excess *leading* entries dropped when longer — in particular a present
`SliceSpacing` is discarded when the derived shape is 2-D. -/
theorem c10_sampling_matches_shape (inflate : List Nat → Except Unit (List Nat))
    (s : List Nat) (ds : Dataset) (hok : parseFile inflate s = .ok ds) :
    ds.sampling.length = ds.shape.length ∧
    ∃ raw : List ℚ, rawSampling ds.info = .ok raw ∧
      ds.sampling = List.replicate (ds.shape.length - raw.length) (1 : ℚ) ++
        raw.drop (raw.length - ds.shape.length) := by
  unfold parseFile at hok
  split at hok
  · exact absurd hok (by simp)
  · split at hok
    · exact absurd hok (by simp)
    · rename_i ts pos hheader
      split at hok
      · exact absurd hok (by simp)
      · rename_i mode hmode
        dsimp only at hok
        split at hok
        · exact absurd hok (by simp)
        · rename_i s2 pos2 hbody
          split at hok
          · exact absurd hok (by simp)
          · rename_i info ploc hloop
            split at hok
            · exact absurd hok (by simp)
            · rename_i shape samp hshape
              simp only [Except.ok.injEq] at hok
              subst hok
              unfold getShapeSampling at hshape
              split at hshape
              · exact absurd hshape (by simp)
              · rename_i shape0 hshape0
                split at hshape
                · exact absurd hshape (by simp)
                · rename_i raw hraw
                  simp only [Except.ok.injEq, Prod.mk.injEq] at hshape
                  obtain ⟨h1, h2⟩ := hshape
                  subst h1
                  refine ⟨?_, raw, hraw, h2.symm⟩
                  rw [← h2]
                  simp only [List.length_append, List.length_replicate, List.length_drop]
                  omega

/-- A complete little concrete DICOM file: preamble, magic, transfer syntax
`1.2.840.10008.1.2.1`, and a body with `SamplesPerPixel = 1`, `Rows = 2`,
`Columns = 3` (`US`) and `PixelSpacing = "1\\1"` (`DS`). -/
def c10file : List Nat :=
  List.replicate 128 0 ++ dicmMagic ++
  ([2, 0, 16, 0] ++ [85, 73] ++ [19, 0] ++ tsUID) ++
  ([40, 0, 2, 0] ++ [85, 83] ++ [2, 0] ++ [1, 0]) ++
  ([40, 0, 16, 0] ++ [85, 83] ++ [2, 0] ++ [2, 0]) ++
  ([40, 0, 17, 0] ++ [85, 83] ++ [2, 0] ++ [3, 0]) ++
  ([40, 0, 48, 0] ++ [68, 83] ++ [3, 0] ++ [49, 92, 49])

/-- The Dataset `c10file` parses to. -/
def c10ds : Dataset :=
  ⟨[("SamplesPerPixel", .nat 1), ("Rows", .nat 2), ("Columns", .nat 3),
    ("PixelSpacing", .rats [1, 1])],
   some "1.2.840.10008.1.2.1", none, [2, 3], [1, 1]⟩

set_option maxRecDepth 80000 in
/-- Witness instantiating `c10_sampling_matches_shape` on a concrete
successful parse. -/
theorem c10_witness :
    parseFile (fun _ => Except.error ()) c10file = Except.ok c10ds ∧
    c10ds.sampling.length = c10ds.shape.length :=
  ⟨by decide, (c10_sampling_matches_shape (fun _ => Except.error ()) c10file c10ds
    (by decide)).1⟩

end Dicom
